import Mathlib

/-!
# lls-exporter: checksum, frame reader and calibration table

A shallow embedding of `lls/exporter.go`.

* Bytes are natural numbers below 256; Go `int` is a 64-bit two's complement
  integer, embedded in `Int` with `wrap64` applied after every arithmetic
  operation that can leave the range.
* `float64` liters are embedded twice. Statements made in exact real
  arithmetic use rationals (`sensorLevel`, `validateLevels`, `interpolate`).
  Statements about every table the code can receive use `float64`, which adds
  NaN and the infinities to the rationals, and take the routine behind
  `sort.Slice` as a parameter (`levelF64`, `validateF64`, `interpolateF64`).
* A run-time panic (integer division by zero, index out of range) is the
  `Outcome.crashed` result.
* The serial port is a list of read results; the reader goroutine is a fold
  over that list. The poll writer is a fold over a list of write results.
* `Serve`, `onError`, `Shutdown` and the goroutines meet on the unbuffered
  channels `errChan` and `stopChan`; they are a transition system over the
  events at which a send meets a receive or a goroutine returns.
-/

namespace LLS

/-! ## Data model -/

/-- Go `sensorLevel`: one calibration point, with liters that are real numbers
(no NaN, no infinity); see `levelF64` for `float64` liters. -/
structure sensorLevel where
  Raw : Int
  Liters : ℚ
deriving DecidableEq

/-- Go `SensorConfig`. -/
structure SensorConfig where
  Name : String
  Address : Int
  MinRaw : Int
  MaxRaw : Int
  Levels : List sensorLevel

/-- Go `sensor`, without its five gauges: the values set on the gauges are the
`Observation` returned by `observe`. -/
structure sensor where
  address : Int
  levels : List sensorLevel
deriving DecidableEq

/-- Result of a piece of Go code that may return an `error` or panic. -/
inductive Outcome (α : Type) where
  | crashed : Outcome α
  | error (msg : String) : Outcome α
  | ok (val : α) : Outcome α
deriving DecidableEq

/-- The five values set on the gauges of a sensor for one frame
(lines 280-284). -/
structure Observation where
  temp : ℚ
  rawLevel : ℚ
  litersLevel : ℚ
  errLineDamage : ℚ
  errWater : ℚ
deriving DecidableEq

/-- The three values decoded from a response frame (lines 245-257). -/
structure Frame where
  address : Int
  temp : Int
  rawLevel : Int
deriving DecidableEq

/-! ## Checksum (lines 69-105) -/

/-- Go `crc8one`. -/
def crc8one (data crc : Nat) : Nat :=
  let i := data ^^^ crc
  let crc := 0
  let crc := if (i &&& 0x01) ≠ 0 then crc ^^^ 0x5e else crc
  let crc := if (i &&& 0x02) ≠ 0 then crc ^^^ 0xbc else crc
  let crc := if (i &&& 0x04) ≠ 0 then crc ^^^ 0x61 else crc
  let crc := if (i &&& 0x08) ≠ 0 then crc ^^^ 0xc2 else crc
  let crc := if (i &&& 0x10) ≠ 0 then crc ^^^ 0x9d else crc
  let crc := if (i &&& 0x20) ≠ 0 then crc ^^^ 0x23 else crc
  let crc := if (i &&& 0x40) ≠ 0 then crc ^^^ 0x46 else crc
  let crc := if (i &&& 0x80) ≠ 0 then crc ^^^ 0x8c else crc
  crc

/-- Go `crc8`: the `range` loop over the data, threading `crc`. -/
def crc8 : List Nat → Nat :=
  go 0
where
  /-- Loop of `crc8` with the running `crc`. -/
  go (crc : Nat) : List Nat → Nat
    | [] => crc
    | d :: rest => go (crc8one d crc) rest

/-- The constant the specification assigns to each bit position. -/
def bitConstants : List Nat := [0x5e, 0xbc, 0x61, 0xc2, 0x9d, 0x23, 0x46, 0x8c]

/-- Step of the specification's checksum: XOR of the constants of the bit
positions 0..7 that are set in `d XOR acc`. -/
def specStep (acc d : Nat) : Nat :=
  let x := d ^^^ acc
  (List.range 8).foldl
    (fun a k => if x.testBit k then a ^^^ bitConstants.getD k 0 else a) 0

/-- Checksum as the specification words it: a left fold from accumulator 0. -/
def specChecksum (data : List Nat) : Nat := data.foldl specStep 0

/-! ## Calibration table (lines 155-181) -/

/-- Reduction of an integer to the 64-bit two's complement range. -/
def wrap64 (x : Int) : Int := (x + 2 ^ 63) % 2 ^ 64 - 2 ^ 63

/-- A value of Go type `int`. -/
def isInt64 (x : Int) : Prop := -2 ^ 63 ≤ x ∧ x < 2 ^ 63

instance (x : Int) : Decidable (isInt64 x) := by
  unfold isInt64; infer_instance

/-- Line 164: `(l.Raw-s.MinRaw)*4093/(s.MaxRaw-s.MinRaw) + 1` on Go `int`;
division truncates towards zero and panics on a zero divisor. -/
def remapRaw (raw minRaw maxRaw : Int) : Outcome Int :=
  let num := wrap64 (wrap64 (raw - minRaw) * 4093)
  let den := wrap64 (maxRaw - minRaw)
  if den = 0 then .crashed
  else .ok (wrap64 (wrap64 (Int.tdiv num den) + 1))

/-- Lines 159-165: the loop that fills `sensor.levels`. -/
def remapLevels (minRaw maxRaw : Int) : List sensorLevel → Outcome (List sensorLevel)
  | [] => .ok []
  | l :: rest =>
    match remapRaw l.Raw minRaw maxRaw with
    | .ok raw =>
      match remapLevels minRaw maxRaw rest with
      | .ok ls => .ok ({ Raw := raw, Liters := l.Liters } :: ls)
      | .error msg => .error msg
      | .crashed => .crashed
    | .error msg => .error msg
    | .crashed => .crashed

/-- Lines 166-168: `sort.Slice` with `less i j = levels[i].Raw < levels[j].Raw`.
The library routine is embedded as an insertion sort, which is what it runs on
slices of at most 12 elements; on longer slices the order among points of
equal `Raw` is not fixed by the library, and `validateF64` takes the routine
as a parameter instead. -/
def sortLevels (levels : List sensorLevel) : List sensorLevel :=
  levels.insertionSort (fun a b => a.Raw ≤ b.Raw)

/-- Lines 170-174: `for i := 0; i < len(levels)-1; i++`, true when the loop
returns the error, on liters that are real numbers (`litersLoopF64` has the
comparison of `float64`, which is false on NaN). The last argument bounds the
number of iterations. -/
def litersLoop (levels : List sensorLevel) : Nat → Nat → Bool
  | _, 0 => false
  | i, fuel + 1 =>
    if h : i + 1 < levels.length then
      if levels[i].Liters ≥ levels[i + 1].Liters then true
      else litersLoop levels (i + 1) fuel
    else false

/-- Lines 155-181: the checks of `Serve` on one sensor's calibration table;
`ok` carries the `levels` stored in the sensor. -/
def validateLevels (s : SensorConfig) : Outcome (List sensorLevel) :=
  if s.Levels.length < 2 then
    .error "at least two levels should be defined"
  else
    match remapLevels s.MinRaw s.MaxRaw s.Levels with
    | .crashed => .crashed
    | .error msg => .error msg
    | .ok remapped =>
      let levels := sortLevels remapped
      if litersLoop levels 0 levels.length then
        .error "sensor raw and liters values are not increasing"
      else
        match levels[0]?, levels[levels.length - 1]? with
        | some first, some last =>
          if first.Raw ≠ 1 then
            .error "lowest level should be for empty tank"
          else if last.Raw ≠ 4094 then
            .error "highest level should be for full tank"
          else .ok levels
        | _, _ => .crashed

/-- Lines 118-185 for one configured sensor: the sensor that is appended to
`sensors` when the table is accepted. -/
def newSensor (s : SensorConfig) : Outcome sensor :=
  match validateLevels s with
  | .ok levels => .ok { address := s.Address, levels := levels }
  | .error msg => .error msg
  | .crashed => .crashed

/-! ## Interpolation and observation (lines 259-285) -/

/-- Line 274: the interpolation between `pl` and `l`, in exact real arithmetic
(no rounding, no overflow, no NaN). -/
def lerp (rawLevel : Int) (pl l : sensorLevel) : ℚ :=
  ((rawLevel - pl.Raw : Int) : ℚ) * (l.Liters - pl.Liters) / ((l.Raw - pl.Raw : Int) : ℚ)
    + pl.Liters

/-- Lines 269-277: `for i, l := range s.levels` from index `i` on, `level`
being the value assigned so far. `s.levels[i-1]` with `i = 0` panics. -/
def scanLevels (levels : List sensorLevel) (rawLevel : Int) :
    Nat → List sensorLevel → ℚ → Outcome ℚ
  | _, [], level => .ok level
  | i, l :: rest, level =>
    if rawLevel = l.Raw then
      scanLevels levels rawLevel (i + 1) rest l.Liters
    else if rawLevel < l.Raw then
      if i = 0 then .crashed
      else
        match levels[i - 1]? with
        | some pl => .ok (lerp rawLevel pl l)
        | none => .crashed
    else
      scanLevels levels rawLevel (i + 1) rest level

/-- The liters computed for a raw level different from 0 and 4095. -/
def interpolate (levels : List sensorLevel) (rawLevel : Int) : Outcome ℚ :=
  scanLevels levels rawLevel 0 levels 0

/-- Lines 261-284: the values set on the gauges of sensor `s` for a frame. -/
def observe (s : sensor) (temp rawLevel : Int) : Outcome Observation :=
  let damageErr : Int := 0
  let waterErr : Int := 0
  let level : ℚ := 0
  if rawLevel = 0 then
    let damageErr : Int := 1
    .ok ⟨temp, rawLevel, level, damageErr, waterErr⟩
  else if rawLevel = 4095 then
    let waterErr : Int := 0
    .ok ⟨temp, rawLevel, level, damageErr, waterErr⟩
  else
    match interpolate s.levels rawLevel with
    | .ok level => .ok ⟨temp, rawLevel, level, damageErr, waterErr⟩
    | .error msg => .error msg
    | .crashed => .crashed

/-- Lines 259-285: lookup of the frame's address in `sensorsMap` and the
observation published for it (`none`: no sensor at that address). -/
def publish (sensorsMap : Int → Option sensor) (f : Frame) : Outcome (Option Observation) :=
  match sensorsMap f.address with
  | none => .ok none
  | some s =>
    match observe s f.temp f.rawLevel with
    | .ok o => .ok (some o)
    | .error msg => .error msg
    | .crashed => .crashed

/-! ## Frame reader (lines 213-257) -/

/-- State of the read goroutine between two calls of `port.Read`. -/
structure ReaderState where
  buf : List Nat
  r : Nat

/-- The buffer after `port.Read(buf[r:])` stored `chunk`. -/
def writeAt (buf : List Nat) (r : Nat) (chunk : List Nat) : List Nat :=
  buf.take r ++ chunk ++ buf.drop (r + chunk.length)

/-- Lines 245-257: the frame decoded from a full buffer; the bytes are
non-negative, so the bit operations on `int` are those on naturals. -/
def decodeFrame (buf : List Nat) : Frame :=
  let address : Int := (buf.getD 1 0 : Nat)
  let temp : Int := (buf.getD 3 0 : Nat)
  let rawLevel : Int := ((buf.getD 4 0 ||| (buf.getD 5 0 <<< 8) : Nat) : Int)
  let rawLevel : Int := if rawLevel < 0 ∨ rawLevel > 4095 then 0 else rawLevel
  { address := address, temp := temp, rawLevel := rawLevel }

/-- Lines 218-257 and 287: one successful `port.Read` that returned `chunk`,
up to the next `port.Read`. A `break` restarts the outer loop with `r = 0`. -/
def readStep (st : ReaderState) (chunk : List Nat) : ReaderState × Option Frame :=
  let buf := writeAt st.buf st.r chunk
  let r := st.r + chunk.length
  if buf.getD 0 0 ≠ 0x3e then (⟨buf, 0⟩, none)
  else if r < 3 then (⟨buf, r⟩, none)
  else if buf.getD 2 0 ≠ 0x06 then (⟨buf, 0⟩, none)
  else if r < 9 then (⟨buf, r⟩, none)
  else if buf.getD 8 0 ≠ crc8 (buf.take 8) then (⟨buf, 0⟩, none)
  else (⟨buf, 0⟩, some (decodeFrame buf))

/-- The reader over a sequence of successful reads: final state and the
frames decoded, in order. -/
def readRun : ReaderState → List (List Nat) → ReaderState × List Frame
  | st, [] => (st, [])
  | st, chunk :: rest =>
    let (st1, f) := readStep st chunk
    let (st2, fs) := readRun st1 rest
    (st2, f.toList ++ fs)

/-- Every read returns at most as many bytes as `buf[r:]` can hold. -/
def chunksFit : ReaderState → List (List Nat) → Bool
  | _, [] => true
  | st, chunk :: rest =>
    decide (chunk.length ≤ 9 - st.r) && chunksFit (readStep st chunk).1 rest

/-- What `port.Read` returns: data, or an error. -/
inductive ReadResult where
  | data (chunk : List Nat) : ReadResult
  | failed (err : String) : ReadResult

/-- The read goroutine over a sequence of read results: the frames decoded,
the state, and the error handed to `onError` (after which it returns). -/
def readerLoop : ReaderState → List ReadResult → ReaderState × List Frame × Option String
  | st, [] => (st, [], none)
  | st, .failed err :: _ => (st, [], some err)
  | st, .data chunk :: rest =>
    let (st1, f) := readStep st chunk
    let (st2, fs, e) := readerLoop st1 rest
    (st2, f.toList ++ fs, e)

/-- The buffer as allocated on line 213. -/
def initialState : ReaderState := ⟨List.replicate 9 0, 0⟩

/-- A response frame as the protocol defines it: nine bytes, start marker,
type code and trailing checksum. -/
def validFrame (b : List Nat) : Prop :=
  b.length = 9 ∧ b.getD 0 0 = 0x3e ∧ b.getD 2 0 = 0x06 ∧ b.getD 8 0 = crc8 (b.take 8)

instance (b : List Nat) : Decidable (validFrame b) := by
  unfold validFrame; infer_instance

/-! ## Predicates used in the statements -/

/-- The liters increase strictly from each point of the table to the next. -/
def litersIncreasing (levels : List sensorLevel) : Prop :=
  levels.Chain' (fun a b => a.Liters < b.Liters)

instance (levels : List sensorLevel) : Decidable (litersIncreasing levels) := by
  unfold litersIncreasing; infer_instance

/-- A nine-byte block that passes the start-marker and type-code checks. -/
def wellStarted (b : List Nat) : Prop :=
  b.length = 9 ∧ b.getD 0 0 = 0x3e ∧ b.getD 2 0 = 0x06

instance (b : List Nat) : Decidable (wellStarted b) := by
  unfold wellStarted; infer_instance

/-- The frame a nine-byte block stands for: its decoding when the trailing
byte is the checksum of the first eight, nothing otherwise. -/
def blockFrame (b : List Nat) : Option Frame :=
  if b.getD 8 0 = crc8 (b.take 8) then some (decodeFrame b) else none

/-! ## Shift-register CRC-8 and the inverse of the table step -/

/-- One round of the reflected (LSB-first) shift-and-XOR register with
generator polynomial `poly`. -/
def lsbRound (poly crc : Nat) : Nat :=
  if crc &&& 1 ≠ 0 then (crc >>> 1) ^^^ poly else crc >>> 1

/-- The bit-by-bit reflected CRC-8 with polynomial `poly`: initial value 0,
each byte XORed into the register and shifted eight times, no final XOR. -/
def crcLsb (poly : Nat) (data : List Nat) : Nat :=
  data.foldl (fun crc d => (lsbRound poly)^[8] (crc ^^^ d)) 0

/-- One round of the MSB-first shift-and-XOR register on eight bits. -/
def msbRound (poly crc : Nat) : Nat :=
  if crc &&& 0x80 ≠ 0 then ((crc <<< 1) ^^^ poly) % 256 else (crc <<< 1) % 256

/-- The bit-by-bit MSB-first CRC-8 with polynomial `poly`: initial value 0,
no final XOR. -/
def crcMsb (poly : Nat) (data : List Nat) : Nat :=
  data.foldl (fun crc d => (msbRound poly)^[8] (crc ^^^ d)) 0

/-- The byte whose table step is `y`: the XOR of the constants below over the
bits set in `y`. It undoes `crc8one` with `crc = 0` on bytes. -/
def unmix (y : Nat) : Nat :=
  (List.range 8).foldl
    (fun a k => if y.testBit k then a ^^^ [0x19, 0x32, 0x64, 0xc8, 0x89, 0x0b, 0x16, 0x2c].getD k 0
      else a) 0

/-! ## Sensor list and poll writer (lines 118-185, 296-316) -/

/-- Lines 118-185: the loop of `Serve` over `config.Sensors`; `ok` carries the
slice `sensors`, in the order of the configuration. -/
def buildSensors : List SensorConfig → Outcome (List sensor)
  | [] => .ok []
  | c :: rest =>
    match newSensor c with
    | .ok s =>
      match buildSensors rest with
      | .ok ss => .ok (s :: ss)
      | .error msg => .error msg
      | .crashed => .crashed
    | .error msg => .error msg
    | .crashed => .crashed

/-- Go conversion `byte(x)` of an `int`. -/
def toByte (x : Int) : Nat := (x % 256).toNat

/-- Lines 298-299: the request message for a sensor address. -/
def requestFrame (address : Int) : List Nat :=
  let msg := [0x31, toByte address, 0x06, 0]
  msg.set 3 (crc8 (msg.take 3))

/-- What one turn of the loop on lines 302-315 meets: the stop signal on
`stopChan`, or the result of `port.Write(msg[r:])`. -/
inductive WriteResult where
  | accepted (n : Nat) : WriteResult
  | failed (err : String) : WriteResult
  | stopped : WriteResult
deriving DecidableEq

/-- How the writer stands after a piece of its code: `done` when the piece ran
to its end, `pending` when no further result is scripted, `stopped` and
`failed` when the goroutine returned. -/
inductive WriteStatus where
  | done : WriteStatus
  | pending : WriteStatus
  | stopped : WriteStatus
  | failed (err : String) : WriteStatus
deriving DecidableEq

/-- Lines 301-315: the loop `for r < len(msg)` from offset `r`, over the
scripted results: the bytes the device accepted, the unused results, and the
status. -/
def writeMsg (msg : List Nat) : Nat → List WriteResult → List Nat × List WriteResult × WriteStatus
  | r, [] => ([], [], if r < msg.length then .pending else .done)
  | r, ev :: rest =>
    if r < msg.length then
      match ev with
      | .stopped => ([], rest, .stopped)
      | .failed err => ([], rest, .failed err)
      | .accepted n =>
        let (out, rest1, status) := writeMsg msg (r + n) rest
        ((msg.drop r).take n ++ out, rest1, status)
    else ([], ev :: rest, .done)

/-- Lines 297-316: one sweep over `sensors`. -/
def sweep : List sensor → List WriteResult → List Nat × List WriteResult × WriteStatus
  | [], script => ([], script, .done)
  | s :: rest, script =>
    match writeMsg (requestFrame s.address) 0 script with
    | (out, script1, .done) =>
      let (out2, script2, status) := sweep rest script1
      (out ++ out2, script2, status)
    | (out, script1, status) => (out, script1, status)

/-- The accept counts of the writes of one message of which `remaining` bytes
are left: each between 1 and the bytes still unwritten, until none is left. -/
def validAccepts : Nat → List Nat → Bool
  | remaining, [] => decide (remaining = 0)
  | remaining, n :: ns =>
    decide (1 ≤ n ∧ n ≤ remaining) && validAccepts (remaining - n) ns

/-! ## Shutdown coordination (lines 199-207, 218-222, 303-313, 320-325, 331-356)

`errChan` and `stopChan` are unbuffered: a send completes only together with a
receive. The three goroutines and `Serve` are a transition system whose events
are the moments they meet on a channel or return. -/

/-- A Go `error` as `Serve` tells them apart on line 339: the sentinel
`stopError`, or any other error. -/
inductive GoError where
  | stopError : GoError
  | fault (msg : String) : GoError
deriving DecidableEq

/-- Where the goroutine that runs `Serve` stands. -/
inductive ServePc where
  /-- Lines 187-329, before the receive on line 331. -/
  | starting : ServePc
  /-- Blocked in `outErr := <-e.errChan`, line 331. -/
  | receiving : ServePc
  /-- Blocked in `e.stopChan <- struct{}{}`, line 333. -/
  | sendingStop (outErr : GoError) : ServePc
  /-- In `port.Close()` and `httpServer.Shutdown(timeout)`, lines 334-337. -/
  | closing (outErr : GoError) : ServePc
  /-- Lines 339-343: `Serve` returned; `none` is `nil`. -/
  | returned (result : Option GoError) : ServePc
deriving DecidableEq

/-- State of the coordination: `Serve` and which goroutines have not returned. -/
structure Coordination where
  serve : ServePc
  writerRunning : Bool
  readerRunning : Bool
  httpRunning : Bool
deriving DecidableEq

/-- Lines 346-352, `onError`: the send on `errChan` happens when `Serve` is
blocked in the receive of line 331, which then goes on to line 333 with
`outErr = err`; otherwise the `default` case drops the value. The caller goes
on in both cases. -/
def onError (c : Coordination) (err : GoError) : Coordination :=
  match c.serve with
  | .receiving => { c with serve := .sendingStop err }
  | _ => c

/-- Lines 339-343: what `Serve` returns for `outErr`. -/
def serveResult (outErr : GoError) : Option GoError :=
  if outErr = .stopError then none else some outErr

/-- The events of the coordination. -/
inductive Event where
  /-- `Serve` reaches the receive of line 331. -/
  | serveReady : Event
  /-- Lines 218-222: `port.Read` fails; the reader calls `onError` and returns. -/
  | readFailed (msg : String) : Event
  /-- Lines 309-313: `port.Write` fails; the writer calls `onError` and returns. -/
  | writeFailed (msg : String) : Event
  /-- Lines 203-206: `ListenAndServe` fails; its goroutine calls `onError`. -/
  | httpFailed (msg : String) : Event
  /-- Line 355: a call of `Shutdown`. -/
  | shutdown : Event
  /-- Line 304 or 322: the writer receives from `stopChan` and returns; the
  send of line 333 completes. -/
  | stopTaken : Event
  /-- Lines 334-343: `port.Close` and `httpServer.Shutdown` are over and `Serve`
  returns. -/
  | closed : Event
deriving DecidableEq

/-- One event; `none` when it cannot happen in the state. -/
def step (c : Coordination) : Event → Option Coordination
  | .serveReady =>
    match c.serve with
    | .starting => some { c with serve := .receiving }
    | _ => none
  | .readFailed msg =>
    if c.readerRunning then some { onError c (.fault msg) with readerRunning := false }
    else none
  | .writeFailed msg =>
    if c.writerRunning then some { onError c (.fault msg) with writerRunning := false }
    else none
  | .httpFailed msg =>
    if c.httpRunning then some { onError c (.fault msg) with httpRunning := false }
    else none
  | .shutdown => some (onError c .stopError)
  | .stopTaken =>
    match c.serve with
    | .sendingStop outErr =>
      if c.writerRunning then some { c with serve := .closing outErr, writerRunning := false }
      else none
    | _ => none
  | .closed =>
    match c.serve with
    | .closing outErr => some { c with serve := .returned (serveResult outErr) }
    | _ => none

/-- A sequence of events from a state. -/
def runEvents : Coordination → List Event → Option Coordination
  | c, [] => some c
  | c, ev :: rest =>
    match step c ev with
    | some c1 => runEvents c1 rest
    | none => none

/-- The state after the three `go` statements of `Serve`. -/
def started : Coordination := ⟨.starting, true, true, true⟩

/-! ## Calibration table with `float64` liters (lines 19-22, 155-181, 269-277)

The same code as above with the liters as Go `float64` values, which include
NaN and the infinities, and with `sort.Slice` taken as a parameter. -/

/-- A Go `float64` as the comparisons and the arithmetic of the code tell
values apart: NaN, the two infinities, or a real number; both zeros are
`num 0`. Finite values are rationals and the arithmetic on them is exact:
rounding and overflow of finite results are not represented. -/
inductive float64 where
  | nan : float64
  | negInf : float64
  | num (q : ℚ) : float64
  | posInf : float64
deriving DecidableEq

/-- Go `a >= b` on `float64`: false as soon as one operand is NaN. -/
def float64.ge : float64 → float64 → Bool
  | .nan, _ => false
  | _, .nan => false
  | _, .negInf => true
  | .posInf, _ => true
  | .negInf, _ => false
  | _, .posInf => false
  | .num a, .num b => decide (b ≤ a)

/-- Go `a < b` on `float64`: false as soon as one operand is NaN. -/
def float64.lt (a b : float64) : Bool := b.ge a && !a.ge b

/-- Go `a - b` on `float64`. -/
def float64.sub : float64 → float64 → float64
  | .nan, _ => .nan
  | _, .nan => .nan
  | .posInf, .posInf => .nan
  | .negInf, .negInf => .nan
  | .posInf, _ => .posInf
  | .negInf, _ => .negInf
  | _, .posInf => .negInf
  | _, .negInf => .posInf
  | .num a, .num b => .num (a - b)

/-- Go `a + b` on `float64`. -/
def float64.add : float64 → float64 → float64
  | .nan, _ => .nan
  | _, .nan => .nan
  | .posInf, .negInf => .nan
  | .negInf, .posInf => .nan
  | .posInf, _ => .posInf
  | .negInf, _ => .negInf
  | _, .posInf => .posInf
  | _, .negInf => .negInf
  | .num a, .num b => .num (a + b)

/-- Go `float64(k) * a` for an `int` `k`. -/
def float64.mulInt (k : Int) : float64 → float64
  | .nan => .nan
  | .num q => .num (k * q)
  | .posInf => if k = 0 then .nan else if 0 < k then .posInf else .negInf
  | .negInf => if k = 0 then .nan else if 0 < k then .negInf else .posInf

/-- Go `a / float64(d)` for an `int` `d`; `float64(0)` is the positive zero. -/
def float64.divInt : float64 → Int → float64
  | .nan, _ => .nan
  | .num q, d =>
    if d = 0 then (if q = 0 then .nan else if 0 < q then .posInf else .negInf)
    else .num (q / d)
  | .posInf, d => if 0 ≤ d then .posInf else .negInf
  | .negInf, d => if 0 ≤ d then .negInf else .posInf

/-- Go `sensorLevel` with `Liters` as `float64`. -/
structure levelF64 where
  Raw : Int
  Liters : float64
deriving DecidableEq

/-- Go `SensorConfig` with `float64` liters. -/
structure ConfigF64 where
  Name : String
  Address : Int
  MinRaw : Int
  MaxRaw : Int
  Levels : List levelF64

/-- Lines 159-165 on `float64` liters: the loop that fills `sensor.levels`. -/
def remapLevelsF64 (minRaw maxRaw : Int) : List levelF64 → Outcome (List levelF64)
  | [] => .ok []
  | l :: rest =>
    match remapRaw l.Raw minRaw maxRaw with
    | .ok raw =>
      match remapLevelsF64 minRaw maxRaw rest with
      | .ok ls => .ok ({ Raw := raw, Liters := l.Liters } :: ls)
      | .error msg => .error msg
      | .crashed => .crashed
    | .error msg => .error msg
    | .crashed => .crashed

/-- Lines 170-174 on `float64` liters, true when the loop returns the error;
the last argument bounds the number of iterations. -/
def litersLoopF64 (levels : List levelF64) : Nat → Nat → Bool
  | _, 0 => false
  | i, fuel + 1 =>
    if h : i + 1 < levels.length then
      if levels[i].Liters.ge levels[i + 1].Liters then true
      else litersLoopF64 levels (i + 1) fuel
    else false

/-- What `sort.Slice` (a library routine) guarantees for the `less` of line
167: the result is a permutation of the slice in which no point comes before
a point of smaller `Raw`. The order among points of equal `Raw` is not fixed:
the routine is not stable. -/
def sortsByRaw (sortSlice : List levelF64 → List levelF64) : Prop :=
  ∀ l, (sortSlice l).Perm l ∧ (sortSlice l).Pairwise (fun a b => a.Raw ≤ b.Raw)

/-- The insertion sort that `sort.Slice` runs on slices of at most 12
elements. -/
def insertionSortF64 (levels : List levelF64) : List levelF64 :=
  levels.insertionSort (fun a b => a.Raw ≤ b.Raw)

/-- Lines 155-181 on `float64` liters, with the routine behind `sort.Slice` as
the parameter `sortSlice`. -/
def validateF64 (sortSlice : List levelF64 → List levelF64) (s : ConfigF64) :
    Outcome (List levelF64) :=
  if s.Levels.length < 2 then
    .error "at least two levels should be defined"
  else
    match remapLevelsF64 s.MinRaw s.MaxRaw s.Levels with
    | .crashed => .crashed
    | .error msg => .error msg
    | .ok remapped =>
      let levels := sortSlice remapped
      if litersLoopF64 levels 0 levels.length then
        .error "sensor raw and liters values are not increasing"
      else
        match levels[0]?, levels[levels.length - 1]? with
        | some first, some last =>
          if first.Raw ≠ 1 then
            .error "lowest level should be for empty tank"
          else if last.Raw ≠ 4094 then
            .error "highest level should be for full tank"
          else .ok levels
        | _, _ => .crashed

/-- Line 274 on `float64`:
`float64(rawLevel-pl.Raw)*(l.Liters-pl.Liters)/float64(l.Raw-pl.Raw) + pl.Liters`. -/
def lerpF64 (rawLevel : Int) (pl l : levelF64) : float64 :=
  (((l.Liters.sub pl.Liters).mulInt (rawLevel - pl.Raw)).divInt (l.Raw - pl.Raw)).add pl.Liters

/-- Lines 269-277 on `float64` liters: the loop from index `i` on, `level`
being the value assigned so far. -/
def scanF64 (levels : List levelF64) (rawLevel : Int) :
    Nat → List levelF64 → float64 → Outcome float64
  | _, [], level => .ok level
  | i, l :: rest, level =>
    if rawLevel = l.Raw then
      scanF64 levels rawLevel (i + 1) rest l.Liters
    else if rawLevel < l.Raw then
      if i = 0 then .crashed
      else
        match levels[i - 1]? with
        | some pl => .ok (lerpF64 rawLevel pl l)
        | none => .crashed
    else
      scanF64 levels rawLevel (i + 1) rest level

/-- The liters computed on `float64` for a raw level different from 0 and
4095; `var level float64 = 0` on line 263. -/
def interpolateF64 (levels : List levelF64) (rawLevel : Int) : Outcome float64 :=
  scanF64 levels rawLevel 0 levels (.num 0)

/-- The liters increase strictly, as `float64` values, from each point of the
table to the next. -/
def litersIncreasingF64 (levels : List levelF64) : Prop :=
  levels.Chain' (fun a b => a.Liters.lt b.Liters = true)

instance (levels : List levelF64) : Decidable (litersIncreasingF64 levels) := by
  unfold litersIncreasingF64; infer_instance

/-! ## Checksum -/

theorem and_two_pow_ne_zero (x k : Nat) : (x &&& 2 ^ k ≠ 0) ↔ x.testBit k = true := by
  rw [Nat.and_two_pow]
  cases h : x.testBit k <;> simp

theorem crc8one_eq_specStep (d acc : Nat) : crc8one d acc = specStep acc d := by
  unfold crc8one specStep
  generalize d ^^^ acc = x
  have h0 : (x &&& 0x01 ≠ 0) ↔ x.testBit 0 = true := and_two_pow_ne_zero x 0
  have h1 : (x &&& 0x02 ≠ 0) ↔ x.testBit 1 = true := and_two_pow_ne_zero x 1
  have h2 : (x &&& 0x04 ≠ 0) ↔ x.testBit 2 = true := and_two_pow_ne_zero x 2
  have h3 : (x &&& 0x08 ≠ 0) ↔ x.testBit 3 = true := and_two_pow_ne_zero x 3
  have h4 : (x &&& 0x10 ≠ 0) ↔ x.testBit 4 = true := and_two_pow_ne_zero x 4
  have h5 : (x &&& 0x20 ≠ 0) ↔ x.testBit 5 = true := and_two_pow_ne_zero x 5
  have h6 : (x &&& 0x40 ≠ 0) ↔ x.testBit 6 = true := and_two_pow_ne_zero x 6
  have h7 : (x &&& 0x80 ≠ 0) ↔ x.testBit 7 = true := and_two_pow_ne_zero x 7
  simp only [h0, h1, h2, h3, h4, h5, h6, h7, bitConstants, List.range, List.range.loop,
    List.foldl, List.getD_cons_zero, List.getD_cons_succ]

theorem crc8_go_eq_foldl (data : List Nat) (acc : Nat) :
    crc8.go acc data = data.foldl specStep acc := by
  induction data generalizing acc with
  | nil => rfl
  | cons d rest ih => simp [crc8.go, ih, crc8one_eq_specStep]

/-- C2: for every byte sequence `crc8` is the left fold, from accumulator 0, of
the step that XORs the constants of the bits set in `d XOR accumulator`; the
checksum of the empty sequence is 0. -/
theorem crc8_eq_specChecksum (data : List Nat) :
    crc8 data = specChecksum data ∧ crc8 [] = 0 :=
  ⟨crc8_go_eq_foldl data 0, rfl⟩

/-! ## Frame reader -/

theorem writeAt_progress (b tail : List Nat) (r n : Nat) (hb : b.length = 9)
    (hrn : r + n ≤ 9) :
    writeAt (b.take r ++ tail) r ((b.drop r).take n) = b.take (r + n) ++ tail.drop n := by
  have h1 : (b.take r).length = r := by simp; omega
  have h2 : ((b.drop r).take n).length = n := by simp; omega
  unfold writeAt
  rw [h2, List.take_left' h1]
  have h3 : List.drop (r + n) (b.take r ++ tail) = tail.drop n := by
    have := @List.drop_append _ (b.take r) tail n
    rwa [h1] at this
  rw [h3, List.take_add]

theorem getD_zero_take_append (b t : List Nat) (k : Nat) (hk : 0 < k) (hb : b.length = 9) :
    (b.take k ++ t).getD 0 0 = b.getD 0 0 := by
  match b, hb with
  | b0 :: rest, _ =>
    match k, hk with
    | k + 1, _ => simp

theorem getD_two_take_append (b t : List Nat) (k : Nat) (hk : 3 ≤ k) (hb : b.length = 9) :
    (b.take k ++ t).getD 2 0 = b.getD 2 0 := by
  match b, hb with
  | b0 :: b1 :: b2 :: rest, _ =>
    match k, hk with
    | k + 3, _ => simp

theorem readStep_midway (b tail : List Nat) (r n : Nat) (hb : wellStarted b)
    (hlen : (b.take r ++ tail).length = 9) (hrn : r + n < 9) :
    readStep ⟨b.take r ++ tail, r⟩ ((b.drop r).take n)
      = (⟨b.take (r + n) ++ tail.drop n, r + n⟩, none) := by
  obtain ⟨hb9, hb0, hb2⟩ := hb
  have h2 : ((b.drop r).take n).length = n := by simp; omega
  unfold readStep
  simp only [writeAt_progress b tail r n hb9 (by omega), h2]
  rcases Nat.eq_zero_or_pos (r + n) with h0 | hpos
  · have hr : r = 0 := by omega
    have hn : n = 0 := by omega
    subst hr; subst hn
    simp
  · rw [getD_zero_take_append b _ _ hpos hb9, hb0]
    by_cases h3 : r + n < 3
    · simp [h3]
    · rw [getD_two_take_append b _ _ (by omega) hb9, hb2]
      simp [h3, hrn]

theorem readStep_complete (b tail : List Nat) (r n : Nat) (hb : wellStarted b)
    (hlen : (b.take r ++ tail).length = 9) (hrn : r + n = 9) :
    readStep ⟨b.take r ++ tail, r⟩ ((b.drop r).take n) = (⟨b, 0⟩, blockFrame b) := by
  obtain ⟨hb9, hb0, hb2⟩ := hb
  have h2 : ((b.drop r).take n).length = n := by simp; omega
  have htail : tail.drop n = [] := by
    apply List.drop_eq_nil_of_le
    have : (b.take r).length = r := by simp; omega
    simp only [List.length_append, this] at hlen
    omega
  have hfull : b.take 9 = b := by rw [← hb9]; exact List.take_length b
  have hw := writeAt_progress b tail r n hb9 (by omega)
  rw [hrn, hfull, htail, List.append_nil] at hw
  unfold readStep blockFrame
  simp only [hw, h2, hrn, hb0, hb2]
  by_cases hc : b.getD 8 0 = crc8 (b.take 8)
  · have hc1 := hc
    simp only [List.getD_eq_getElem?_getD] at hc1
    simp [hc1]
  · have hc1 := hc
    simp only [List.getD_eq_getElem?_getD] at hc1
    simp [hc1]

theorem readStep_short (st : ReaderState) (c : List Nat) (h : st.r + c.length < 9) :
    (readStep st c).2 = none ∧ (readStep st c).1.r ≤ st.r + c.length := by
  unfold readStep
  simp only
  split_ifs <;> first | omega | simp

theorem readRun_short (chunks : List (List Nat)) :
    ∀ st : ReaderState, st.r + chunks.flatten.length < 9 →
      (readRun st chunks).2 = [] ∧ (readRun st chunks).1.r ≤ st.r + chunks.flatten.length := by
  induction chunks with
  | nil => intro st _; simp [readRun]
  | cons c cs ih =>
    intro st h
    simp only [List.flatten_cons, List.length_append] at h ⊢
    obtain ⟨h1, h2⟩ := readStep_short st c (by omega)
    obtain ⟨h3, h4⟩ := ih (readStep st c).1 (by omega)
    simp only [readRun, h1, h3, Option.toList, List.append_nil, true_and]
    omega

theorem readRun_empties (chunks : List (List Nat)) :
    ∀ st : ReaderState, st.r = 0 → chunks.flatten = [] →
      (readRun st chunks).2 = [] ∧ (readRun st chunks).1.r = 0
        ∧ chunksFit st chunks = true := by
  induction chunks with
  | nil => intro st h _; simp [readRun, chunksFit, h]
  | cons c cs ih =>
    intro st h hfl
    simp only [List.flatten_cons, List.append_eq_nil] at hfl
    obtain ⟨hc, hcs⟩ := hfl
    subst hc
    obtain ⟨h1, h2⟩ := readStep_short st [] (by simp [h])
    have h0 : (readStep st []).1.r = 0 := by simpa [h] using h2
    obtain ⟨h3, h4, h5⟩ := ih (readStep st []).1 h0 hcs
    simp [readRun, chunksFit, h1, h3, h4, h5]

theorem split_chunk (c rest s t : List Nat) (h : c ++ rest = s ++ t)
    (hc : c.length ≤ s.length) : c = s.take c.length ∧ rest = s.drop c.length ++ t := by
  have hs : s ++ t = s.take c.length ++ (s.drop c.length ++ t) := by
    rw [← List.append_assoc, List.take_append_drop]
  rw [hs] at h
  exact List.append_inj h (by simp [hc])

/-- While the bytes of one well-started block arrive, every read fits the
free space of the buffer. -/
theorem chunksFit_block (chunks : List (List Nat)) :
    ∀ (b : List Nat) (r : Nat) (tail : List Nat), wellStarted b → r < 9 →
      (b.take r ++ tail).length = 9 → chunks.flatten = b.drop r →
      chunksFit ⟨b.take r ++ tail, r⟩ chunks = true := by
  induction chunks with
  | nil => intros; rfl
  | cons c cs ih =>
    intro b r tail hb hr hlen hfl
    have hb9 := hb.1
    rw [List.flatten_cons, ← List.append_nil (b.drop r)] at hfl
    have hcl : c.length ≤ (b.drop r).length := by
      have := congrArg List.length hfl
      simp only [List.length_append, List.length_nil] at this
      omega
    obtain ⟨hc, hrest⟩ := split_chunk c cs.flatten (b.drop r) [] hfl hcl
    have hn : c.length ≤ 9 - r := by simpa [hb9] using hcl
    rw [List.append_nil, List.drop_drop] at hrest
    simp only [chunksFit, hn, decide_True, Bool.true_and]
    rw [hc]
    rcases Nat.lt_or_ge (r + c.length) 9 with hlt | hge
    · rw [readStep_midway b tail r c.length hb hlen hlt]
      apply ih b (r + c.length) (tail.drop c.length) hb hlt _ hrest
      have : (b.take r).length = r := by simp; omega
      simp only [List.length_append, this, List.length_take, List.length_drop] at hlen ⊢
      omega
    · have heq : r + c.length = 9 := by omega
      rw [readStep_complete b tail r c.length hb hlen heq]
      have : cs.flatten = [] := by rw [hrest, heq, ← hb9]; exact List.drop_length b
      exact (readRun_empties cs ⟨b, 0⟩ rfl this).2.2

/-- The frames decoded from the bytes of well-started blocks, delivered in
reads that fit the buffer, are the frames of the blocks, in order. -/
theorem readRun_blocks (chunks : List (List Nat)) :
    ∀ (b : List Nat) (blocks : List (List Nat)) (r : Nat) (tail : List Nat),
      wellStarted b → (∀ x ∈ blocks, wellStarted x) → r < 9 →
      (b.take r ++ tail).length = 9 →
      chunks.flatten = b.drop r ++ blocks.flatten →
      chunksFit ⟨b.take r ++ tail, r⟩ chunks = true →
      (readRun ⟨b.take r ++ tail, r⟩ chunks).2
          = (blockFrame b).toList ++ blocks.flatMap (fun x => (blockFrame x).toList)
        ∧ (readRun ⟨b.take r ++ tail, r⟩ chunks).1.r = 0 := by
  induction chunks with
  | nil =>
    intro b blocks r tail hb _ hr _ hfl _
    have := congrArg List.length hfl
    simp [hb.1] at this
    omega
  | cons c cs ih =>
    intro b blocks r tail hb hbs hr hlen hfl hfit
    have hb9 := hb.1
    simp only [chunksFit, Bool.and_eq_true, decide_eq_true_eq] at hfit
    obtain ⟨hn, hfit⟩ := hfit
    have hcl : c.length ≤ (b.drop r).length := by simpa [hb9] using hn
    rw [List.flatten_cons] at hfl
    obtain ⟨hc, hrest⟩ := split_chunk c cs.flatten (b.drop r) blocks.flatten hfl hcl
    rw [List.drop_drop] at hrest
    rw [hc] at hfit
    simp only [readRun]
    rw [hc]
    rcases Nat.lt_or_ge (r + c.length) 9 with hlt | hge
    · rw [readStep_midway b tail r c.length hb hlen hlt] at hfit ⊢
      have hlen2 : (b.take (r + c.length) ++ tail.drop c.length).length = 9 := by
        have : (b.take r).length = r := by simp; omega
        simp only [List.length_append, this, List.length_take, List.length_drop] at hlen ⊢
        omega
      obtain ⟨h1, h2⟩ := ih b blocks (r + c.length) (tail.drop c.length) hb hbs hlt hlen2 hrest hfit
      simp only [h1, h2, Option.toList, List.nil_append, and_self]
    · have heq : r + c.length = 9 := by omega
      rw [readStep_complete b tail r c.length hb hlen heq] at hfit ⊢
      have hdrop : b.drop (r + c.length) = [] := by rw [heq, ← hb9]; exact List.drop_length b
      rw [hdrop, List.nil_append] at hrest
      cases blocks with
      | nil =>
        obtain ⟨h1, h2, _⟩ := readRun_empties cs ⟨b, 0⟩ rfl (by simpa using hrest)
        simp [h1, h2]
      | cons b2 bs =>
        have hb2 := hbs b2 (List.mem_cons_self _ _)
        have hst : (⟨b, 0⟩ : ReaderState) = ⟨b2.take 0 ++ b, 0⟩ := by simp
        rw [hst] at hfit ⊢
        obtain ⟨h1, h2⟩ := ih b2 bs 0 b hb2 (fun x hx => hbs x (List.mem_cons_of_mem _ hx))
          (by omega) (by simpa using hb9) (by simpa using hrest) hfit
        simp only [h1, h2, List.flatMap_cons, and_self]

theorem readRun_append (xs ys : List (List Nat)) (st : ReaderState) :
    readRun st (xs ++ ys)
      = ((readRun (readRun st xs).1 ys).1, (readRun st xs).2 ++ (readRun (readRun st xs).1 ys).2) := by
  induction xs generalizing st with
  | nil => simp [readRun]
  | cons c cs ih => simp [readRun, ih, List.append_assoc]

theorem chunksFit_append (xs ys : List (List Nat)) (st : ReaderState) :
    chunksFit st (xs ++ ys) = (chunksFit st xs && chunksFit (readRun st xs).1 ys) := by
  induction xs generalizing st with
  | nil => simp [readRun, chunksFit]
  | cons c cs ih => simp [readRun, chunksFit, ih, Bool.and_assoc]

theorem readStep_length (st : ReaderState) (c : List Nat) (hbuf : st.buf.length = 9)
    (hfit : st.r + c.length ≤ 9) :
    (readStep st c).1.buf.length = 9 ∧ (readStep st c).1.r < 9 := by
  have hw : (writeAt st.buf st.r c).length = 9 := by
    simp only [writeAt, List.length_append, List.length_take, List.length_drop, hbuf]
    omega
  unfold readStep
  simp only
  split_ifs <;> refine ⟨hw, ?_⟩ <;> dsimp only <;> omega

theorem readRun_length (chunks : List (List Nat)) :
    ∀ st : ReaderState, st.buf.length = 9 → st.r < 9 → chunksFit st chunks = true →
      (readRun st chunks).1.buf.length = 9 ∧ (readRun st chunks).1.r < 9 := by
  induction chunks with
  | nil => intro st h1 h2 _; exact ⟨h1, h2⟩
  | cons c cs ih =>
    intro st h1 h2 hfit
    simp only [chunksFit, Bool.and_eq_true, decide_eq_true_eq] at hfit
    obtain ⟨h3, h4⟩ := readStep_length st c h1 (by omega)
    simpa [readRun] using ih (readStep st c).1 h3 h4 hfit.2

theorem readerLoop_data (chunks : List (List Nat)) (st : ReaderState) :
    readerLoop st (chunks.map ReadResult.data)
      = ((readRun st chunks).1, (readRun st chunks).2, none) := by
  induction chunks generalizing st with
  | nil => rfl
  | cons c cs ih => simp [readerLoop, readRun, ih]

/-- One well-started block delivered to a reader at an empty buffer. -/
theorem readRun_one_block (st : ReaderState) (b : List Nat) (chunks : List (List Nat))
    (hr : st.r = 0) (hbuf : st.buf.length = 9) (hb : wellStarted b)
    (hch : chunks.flatten = b) :
    chunksFit st chunks = true ∧ (readRun st chunks).2 = (blockFrame b).toList
      ∧ (readRun st chunks).1.r = 0 := by
  have hst : st = ⟨b.take 0 ++ st.buf, 0⟩ := by
    cases st; simp only [List.take_zero, List.nil_append]; simp_all
  have hfit : chunksFit ⟨b.take 0 ++ st.buf, 0⟩ chunks = true :=
    chunksFit_block chunks b 0 st.buf hb (by omega) (by simpa using hbuf) (by simpa using hch)
  have h := readRun_blocks chunks b [] 0 st.buf hb (fun _ h => absurd h (List.not_mem_nil _))
    (by omega) (by simpa using hbuf) (by simpa using hch) hfit
  rw [← hst] at hfit h
  exact ⟨hfit, by simpa using h.1, h.2⟩

theorem wellStarted_of_validFrame (b : List Nat) (h : validFrame b) : wellStarted b :=
  ⟨h.1, h.2.1, h.2.2.1⟩

theorem blockFrame_of_validFrame (b : List Nat) (h : validFrame b) :
    blockFrame b = some (decodeFrame b) := by
  unfold blockFrame
  rw [if_pos h.2.2.2]

/-- C1: from an empty buffer, the nine bytes of a valid frame, split into any
sequence of reads, fit the buffer, decode exactly one frame, none before the
ninth byte arrived, with address `b[1]`, temperature `b[3]` and raw level
`b[4] | b[5] << 8` when that is at most 4095 and 0 otherwise, and leave the
buffer empty. -/
theorem reader_decodes_split_frame (st : ReaderState) (b : List Nat)
    (chunks : List (List Nat)) (hr : st.r = 0) (hbuf : st.buf.length = 9)
    (hb : validFrame b) (hch : chunks.flatten = b) :
    chunksFit st chunks = true
      ∧ (readRun st chunks).2 = [decodeFrame b]
      ∧ (∀ k, (chunks.take k).flatten.length < 9 → (readRun st (chunks.take k)).2 = [])
      ∧ (decodeFrame b).address = (b.getD 1 0 : Nat)
      ∧ (decodeFrame b).temp = (b.getD 3 0 : Nat)
      ∧ (decodeFrame b).rawLevel
          = (if b.getD 4 0 ||| (b.getD 5 0 <<< 8) ≤ 4095
              then ((b.getD 4 0 ||| (b.getD 5 0 <<< 8) : Nat) : Int) else 0)
      ∧ (readRun st chunks).1.r = 0 := by
  obtain ⟨h1, h2, h3⟩ := readRun_one_block st b chunks hr hbuf
    (wellStarted_of_validFrame b hb) hch
  rw [blockFrame_of_validFrame b hb] at h2
  refine ⟨h1, h2, ?_, rfl, rfl, ?_, h3⟩
  · intro k hk
    exact (readRun_short (chunks.take k) st (by omega)).1
  · simp only [decodeFrame]
    by_cases h : b.getD 4 0 ||| (b.getD 5 0 <<< 8) ≤ 4095
    · have h4 : ¬ (((b.getD 4 0 ||| (b.getD 5 0 <<< 8) : Nat) : Int) < 0
          ∨ ((b.getD 4 0 ||| (b.getD 5 0 <<< 8) : Nat) : Int) > 4095) := by omega
      rw [if_neg h4, if_pos h]
    · have h4 : (((b.getD 4 0 ||| (b.getD 5 0 <<< 8) : Nat) : Int) < 0
          ∨ ((b.getD 4 0 ||| (b.getD 5 0 <<< 8) : Nat) : Int) > 4095) := by omega
      rw [if_pos h4, if_neg h]

/-- A frame for address 1, temperature 20 and raw level 2047, read in three
pieces by a freshly started reader. -/
theorem reader_decodes_split_frame_witness :
    validFrame [0x3e, 1, 0x06, 20, 0xff, 0x07, 0, 0, 56]
      ∧ (readRun initialState [[0x3e, 1], [0x06, 20, 0xff], [0x07, 0, 0, 56]]).2
          = [decodeFrame [0x3e, 1, 0x06, 20, 0xff, 0x07, 0, 0, 56]] :=
  ⟨by decide,
    (reader_decodes_split_frame initialState [0x3e, 1, 0x06, 20, 0xff, 0x07, 0, 0, 56]
      [[0x3e, 1], [0x06, 20, 0xff], [0x07, 0, 0, 56]] rfl rfl (by decide) rfl).2.1⟩

theorem readStep_garbage (st : ReaderState) (c : List Nat) (hr : st.r = 0)
    (hc : c.head? ≠ some 0x3e) :
    (readStep st c).2 = none ∧ (readStep st c).1.r = 0 := by
  cases c with
  | nil =>
    obtain ⟨h1, h2⟩ := readStep_short st [] (by simp [hr])
    exact ⟨h1, by simpa [hr] using h2⟩
  | cons x xs =>
    have hx : x ≠ 0x3e := by simpa using hc
    have h0 : (writeAt st.buf st.r (x :: xs)).getD 0 0 = x := by simp [writeAt, hr]
    unfold readStep
    simp only [h0]
    rw [if_pos hx]
    exact ⟨rfl, rfl⟩

/-- Reads that do not begin with the start marker, arriving at an empty buffer,
decode nothing and leave the buffer empty. -/
theorem readRun_garbage (chunks : List (List Nat)) :
    ∀ st : ReaderState, st.r = 0 → st.buf.length = 9 →
      (∀ c ∈ chunks, c.length ≤ 9 ∧ c.head? ≠ some 0x3e) →
      chunksFit st chunks = true ∧ (readRun st chunks).2 = []
        ∧ (readRun st chunks).1.r = 0 ∧ (readRun st chunks).1.buf.length = 9 := by
  induction chunks with
  | nil => intro st hr hbuf _; simp [chunksFit, readRun, hr, hbuf]
  | cons c cs ih =>
    intro st hr hbuf hall
    obtain ⟨hlen, hhead⟩ := hall c (List.mem_cons_self _ _)
    obtain ⟨h1, h2⟩ := readStep_garbage st c hr hhead
    obtain ⟨h3, _⟩ := readStep_length st c hbuf (by omega)
    obtain ⟨h4, h5, h6, h7⟩ := ih (readStep st c).1 h2 h3
      (fun x hx => hall x (List.mem_cons_of_mem _ hx))
    simp [chunksFit, readRun, hr, hlen, h1, h4, h5, h6, h7]

/-- C6 as stated fails: one garbage byte read together with the first eight
bytes of a valid frame makes the reader drop all nine bytes, and the frame is
never decoded. -/
theorem garbage_chunk_loses_frame :
    validFrame [0x3e, 1, 0x06, 20, 0xff, 0x07, 0, 0, 56]
      ∧ [[0, 0x3e, 1, 0x06, 20, 0xff, 0x07, 0, 0], [56]].flatten
          = [0] ++ [0x3e, 1, 0x06, 20, 0xff, 0x07, 0, 0, 56]
      ∧ chunksFit initialState [[0, 0x3e, 1, 0x06, 20, 0xff, 0x07, 0, 0], [56]] = true
      ∧ (readRun initialState [[0, 0x3e, 1, 0x06, 20, 0xff, 0x07, 0, 0], [56]]).2 = []
      ∧ (readRun initialState [[0, 0x3e, 1, 0x06, 20, 0xff, 0x07, 0, 0], [56]]).2
          ≠ [decodeFrame [0x3e, 1, 0x06, 20, 0xff, 0x07, 0, 0, 56]] := by
  decide

/-- C6, amended: when the garbage arrives in reads of its own, none of which
begins with the start marker 0x3E, and the valid frame follows in any split of
its nine bytes, the reader decodes exactly that frame, nothing from the
garbage, and ends at an empty buffer. -/
theorem reader_skips_garbage_reads (st : ReaderState) (garbage reads : List (List Nat))
    (b : List Nat) (hr : st.r = 0) (hbuf : st.buf.length = 9)
    (hg : ∀ c ∈ garbage, c.length ≤ 9 ∧ c.head? ≠ some 0x3e)
    (hb : validFrame b) (hreads : reads.flatten = b) :
    chunksFit st (garbage ++ reads) = true
      ∧ (readRun st garbage).2 = []
      ∧ (readRun st (garbage ++ reads)).2 = [decodeFrame b]
      ∧ (readRun st (garbage ++ reads)).1.r = 0 := by
  obtain ⟨g1, g2, g3, g4⟩ := readRun_garbage garbage st hr hbuf hg
  obtain ⟨f1, f2, f3⟩ := readRun_one_block (readRun st garbage).1 b reads g3 g4
    (wellStarted_of_validFrame b hb) hreads
  rw [blockFrame_of_validFrame b hb] at f2
  rw [chunksFit_append, readRun_append]
  simp [g1, g2, f1, f2, f3]

/-- Two garbage reads, the second ending in 0x3E, followed by the frame in two
reads. -/
theorem reader_skips_garbage_reads_witness :
    validFrame [0x3e, 1, 0x06, 20, 0xff, 0x07, 0, 0, 56]
      ∧ (readRun initialState
          ([[0, 7], [0x55, 0x3e]] ++ [[0x3e, 1, 0x06], [20, 0xff, 0x07, 0, 0, 56]])).2
          = [decodeFrame [0x3e, 1, 0x06, 20, 0xff, 0x07, 0, 0, 56]] :=
  ⟨by decide,
    (reader_skips_garbage_reads initialState [[0, 7], [0x55, 0x3e]]
      [[0x3e, 1, 0x06], [20, 0xff, 0x07, 0, 0, 56]] [0x3e, 1, 0x06, 20, 0xff, 0x07, 0, 0, 56]
      rfl rfl (by decide) (by decide) rfl).2.2.1⟩

/-- A garbage byte equal to the start marker, even when every byte is read on
its own, makes the reader drop the first bytes of the frame that follows. -/
theorem garbage_start_marker_loses_frame :
    (readRun initialState
      [[0x3e], [0x3e], [1], [0x06], [20], [0xff], [0x07], [0], [0], [56]]).2 = [] := by
  decide

/-- C7: from an empty buffer, nine bytes with start marker and type code but a
wrong trailing checksum, in any split, decode no frame (so nothing is
published), hand no error to `onError`, and leave the buffer empty; a valid
frame delivered right after them, in any split, is decoded. -/
theorem reader_rejects_bad_checksum (st : ReaderState) (b f : List Nat)
    (readsB readsF : List (List Nat)) (hr : st.r = 0) (hbuf : st.buf.length = 9)
    (hb : wellStarted b) (hbad : b.getD 8 0 ≠ crc8 (b.take 8))
    (hf : validFrame f) (hreadsB : readsB.flatten = b) (hreadsF : readsF.flatten = f) :
    chunksFit st (readsB ++ readsF) = true
      ∧ (readRun st readsB).2 = []
      ∧ (∀ sensorsMap, (readRun st readsB).2.map (publish sensorsMap) = [])
      ∧ (readRun st readsB).1.r = 0
      ∧ (readerLoop st (readsB.map ReadResult.data)).2.2 = none
      ∧ (readRun st (readsB ++ readsF)).2 = [decodeFrame f]
      ∧ (readRun st (readsB ++ readsF)).1.r = 0 := by
  obtain ⟨b1, b2, b3⟩ := readRun_one_block st b readsB hr hbuf hb hreadsB
  have hnone : blockFrame b = none := by
    unfold blockFrame
    rw [if_neg hbad]
  rw [hnone] at b2
  have b4 := (readRun_length readsB st hbuf (by omega) b1).1
  obtain ⟨f1, f2, f3⟩ := readRun_one_block (readRun st readsB).1 f readsF b3 b4
    (wellStarted_of_validFrame f hf) hreadsF
  rw [blockFrame_of_validFrame f hf] at f2
  rw [chunksFit_append, readRun_append, readerLoop_data]
  simp only [Option.toList] at b2 f2
  simp [b1, b2, b3, f1, f2, f3]

/-- A frame whose last byte is off by one, followed by the intact frame. -/
theorem reader_rejects_bad_checksum_witness :
    wellStarted [0x3e, 1, 0x06, 20, 0xff, 0x07, 0, 0, 57]
      ∧ ([0x3e, 1, 0x06, 20, 0xff, 0x07, 0, 0, 57] : List Nat).getD 8 0
          ≠ crc8 (([0x3e, 1, 0x06, 20, 0xff, 0x07, 0, 0, 57] : List Nat).take 8)
      ∧ validFrame [0x3e, 1, 0x06, 20, 0xff, 0x07, 0, 0, 56]
      ∧ (readRun initialState ([[0x3e, 1, 0x06, 20], [0xff, 0x07, 0, 0, 57]]
            ++ [[0x3e], [1, 0x06, 20, 0xff, 0x07, 0, 0, 56]])).2
          = [decodeFrame [0x3e, 1, 0x06, 20, 0xff, 0x07, 0, 0, 56]] :=
  ⟨by decide, by decide, by decide,
    (reader_rejects_bad_checksum initialState [0x3e, 1, 0x06, 20, 0xff, 0x07, 0, 0, 57]
      [0x3e, 1, 0x06, 20, 0xff, 0x07, 0, 0, 56] [[0x3e, 1, 0x06, 20], [0xff, 0x07, 0, 0, 57]]
      [[0x3e], [1, 0x06, 20, 0xff, 0x07, 0, 0, 56]] rfl rfl (by decide) (by decide)
      (by decide) rfl rfl).2.2.2.2.2.1⟩

/-- C8 as stated fails: the same ten bytes, delivered as a read of one byte and
a read of nine, or as a read of nine bytes and a read of one, decode one frame
in the first delivery and none in the second. -/
theorem chunking_changes_frames :
    [[0], [0x3e, 1, 0x06, 20, 0xff, 0x07, 0, 0, 56]].flatten
        = [[0, 0x3e, 1, 0x06, 20, 0xff, 0x07, 0, 0], [56]].flatten
      ∧ chunksFit initialState [[0], [0x3e, 1, 0x06, 20, 0xff, 0x07, 0, 0, 56]] = true
      ∧ chunksFit initialState [[0, 0x3e, 1, 0x06, 20, 0xff, 0x07, 0, 0], [56]] = true
      ∧ (readRun initialState [[0], [0x3e, 1, 0x06, 20, 0xff, 0x07, 0, 0, 56]]).2
          ≠ (readRun initialState [[0, 0x3e, 1, 0x06, 20, 0xff, 0x07, 0, 0], [56]]).2 := by
  decide

/-- The frames decoded from a stream of well-started blocks. -/
theorem readRun_stream (st : ReaderState) (blocks : List (List Nat))
    (chunks : List (List Nat)) (hr : st.r = 0) (hbuf : st.buf.length = 9)
    (hblocks : ∀ b ∈ blocks, wellStarted b) (hch : chunks.flatten = blocks.flatten)
    (hfit : chunksFit st chunks = true) :
    (readRun st chunks).2 = blocks.flatMap (fun b => (blockFrame b).toList) := by
  cases blocks with
  | nil => simpa using (readRun_empties chunks st hr (by simpa using hch)).1
  | cons b bs =>
    have hst : st = ⟨b.take 0 ++ st.buf, 0⟩ := by
      cases st; simp only [List.take_zero, List.nil_append]; simp_all
    rw [hst] at hfit
    have h := readRun_blocks chunks b bs 0 st.buf (hblocks b (List.mem_cons_self _ _))
      (fun x hx => hblocks x (List.mem_cons_of_mem _ hx)) (by omega) (by simpa using hbuf)
      (by simpa using hch) hfit
    rw [← hst] at h
    simpa using h.1

/-- C8, amended: for a byte stream that is a concatenation of nine-byte blocks,
each with the start marker and the type code (frames with a right or a wrong
checksum), any two deliveries in reads that fit the buffer decode the same
frames: those of the blocks whose checksum matches, in order. -/
theorem chunking_irrelevant_on_blocks (st : ReaderState) (blocks : List (List Nat))
    (reads1 reads2 : List (List Nat)) (hr : st.r = 0) (hbuf : st.buf.length = 9)
    (hblocks : ∀ b ∈ blocks, wellStarted b)
    (h1 : reads1.flatten = blocks.flatten) (h2 : reads2.flatten = blocks.flatten)
    (hfit1 : chunksFit st reads1 = true) (hfit2 : chunksFit st reads2 = true) :
    (readRun st reads1).2 = (readRun st reads2).2
      ∧ (readRun st reads1).2 = blocks.flatMap (fun b => (blockFrame b).toList) := by
  rw [readRun_stream st blocks reads1 hr hbuf hblocks h1 hfit1,
    readRun_stream st blocks reads2 hr hbuf hblocks h2 hfit2]
  exact ⟨rfl, rfl⟩

/-- A valid frame followed by a block with a wrong checksum, split in two
different ways. -/
theorem chunking_irrelevant_on_blocks_witness :
    (∀ b ∈ [[0x3e, 1, 0x06, 20, 0xff, 0x07, 0, 0, 56], [0x3e, 2, 0x06, 21, 0, 0, 0, 0, 9]],
        wellStarted b)
      ∧ chunksFit initialState
          [[0x3e, 1], [0x06, 20, 0xff, 0x07, 0, 0, 56], [0x3e, 2, 0x06, 21, 0, 0, 0, 0, 9]] = true
      ∧ chunksFit initialState
          [[0x3e, 1, 0x06, 20, 0xff, 0x07, 0, 0, 56], [0x3e, 2, 0x06, 21, 0, 0, 0], [0, 9]] = true
      ∧ (readRun initialState
          [[0x3e, 1], [0x06, 20, 0xff, 0x07, 0, 0, 56], [0x3e, 2, 0x06, 21, 0, 0, 0, 0, 9]]).2
        = (readRun initialState
          [[0x3e, 1, 0x06, 20, 0xff, 0x07, 0, 0, 56], [0x3e, 2, 0x06, 21, 0, 0, 0], [0, 9]]).2 :=
  ⟨by decide, by decide, by decide,
    (chunking_irrelevant_on_blocks initialState
      [[0x3e, 1, 0x06, 20, 0xff, 0x07, 0, 0, 56], [0x3e, 2, 0x06, 21, 0, 0, 0, 0, 9]]
      [[0x3e, 1], [0x06, 20, 0xff, 0x07, 0, 0, 56], [0x3e, 2, 0x06, 21, 0, 0, 0, 0, 9]]
      [[0x3e, 1, 0x06, 20, 0xff, 0x07, 0, 0, 56], [0x3e, 2, 0x06, 21, 0, 0, 0], [0, 9]]
      rfl rfl (by decide) rfl rfl (by decide) (by decide)).1⟩

/-! ## Calibration table -/

theorem wrap64_sub_ne_zero (a b : Int) (ha : isInt64 a) (hb : isInt64 b) (hne : a ≠ b) :
    wrap64 (b - a) ≠ 0 := by
  unfold isInt64 at ha hb
  unfold wrap64
  omega

theorem remapLevels_ok (minRaw maxRaw : Int) (hden : wrap64 (maxRaw - minRaw) ≠ 0)
    (ls : List sensorLevel) :
    ∃ remapped, remapLevels minRaw maxRaw ls = .ok remapped ∧ remapped.length = ls.length := by
  induction ls with
  | nil => exact ⟨[], rfl, rfl⟩
  | cons l rest ih =>
    obtain ⟨r, hr, hlen⟩ := ih
    simp only [remapLevels, remapRaw, if_neg hden, hr]
    exact ⟨_, rfl, by simp [hlen]⟩

theorem length_sortLevels (ls : List sensorLevel) : (sortLevels ls).length = ls.length :=
  List.length_insertionSort _ ls

theorem litersLoop_iff (levels : List sensorLevel) :
    ∀ (fuel i : Nat), levels.length ≤ i + fuel →
      (litersLoop levels i fuel = true ↔ ¬ litersIncreasing (levels.drop i)) := by
  intro fuel
  induction fuel with
  | zero =>
    intro i h
    have : levels.drop i = [] := List.drop_eq_nil_of_le (by omega)
    simp [litersLoop, litersIncreasing, this]
  | succ fuel ih =>
    intro i h
    unfold litersLoop
    by_cases hi : i + 1 < levels.length
    · have h1 : levels.drop i = levels[i] :: levels[i + 1] :: levels.drop (i + 2) := by
        rw [List.drop_eq_getElem_cons (by omega), List.drop_eq_getElem_cons hi]
      have h2 : levels.drop (i + 1) = levels[i + 1] :: levels.drop (i + 2) := by
        rw [List.drop_eq_getElem_cons hi]
      have ih1 := ih (i + 1) (by omega)
      rw [h2] at ih1
      simp only [hi, dite_true, h1, litersIncreasing, List.chain'_cons] at ih1 ⊢
      by_cases hge : levels[i].Liters ≥ levels[i + 1].Liters
      · simp only [hge, if_true, true_iff]
        intro hc
        exact absurd hc.1 (not_lt.mpr hge)
      · simp only [hge, if_false, ih1]
        have hlt : levels[i].Liters < levels[i + 1].Liters := not_le.mp hge
        simp [hlt]
    · have hshort : (levels.drop i).length ≤ 1 := by simp; omega
      have : litersIncreasing (levels.drop i) := by
        unfold litersIncreasing
        match hl : levels.drop i, hshort with
        | [], _ => exact List.chain'_nil
        | [a], _ => exact List.chain'_singleton a
      simp [hi, this]

/-- The checks of `validateLevels`, in the order the code makes them, on the
sorted remapped table. -/
theorem validateLevels_eq (s : SensorConfig) (remapped : List sensorLevel)
    (hre : remapLevels s.MinRaw s.MaxRaw s.Levels = .ok remapped)
    (hlen : remapped.length = s.Levels.length) :
    validateLevels s =
      if s.Levels.length < 2 then .error "at least two levels should be defined"
      else if ¬ litersIncreasing (sortLevels remapped) then
        .error "sensor raw and liters values are not increasing"
      else if (sortLevels remapped).head?.map (fun l => l.Raw) ≠ some 1 then
        .error "lowest level should be for empty tank"
      else if (sortLevels remapped).getLast?.map (fun l => l.Raw) ≠ some 4094 then
        .error "highest level should be for full tank"
      else .ok (sortLevels remapped) := by
  unfold validateLevels
  by_cases h2 : s.Levels.length < 2
  · simp only [h2, if_true]
  · simp only [h2, if_false, hre]
    have hL : (sortLevels remapped).length = s.Levels.length := by
      rw [length_sortLevels, hlen]
    have hloop := litersLoop_iff (sortLevels remapped) (sortLevels remapped).length 0 (by omega)
    rw [List.drop_zero] at hloop
    by_cases hinc : litersIncreasing (sortLevels remapped)
    · have hfalse : litersLoop (sortLevels remapped) 0 (sortLevels remapped).length = false := by
        cases hb : litersLoop (sortLevels remapped) 0 (sortLevels remapped).length with
        | false => rfl
        | true => exact absurd hinc (hloop.mp hb)
      have h0 := @List.getElem?_eq_getElem _ (sortLevels remapped) 0 (by omega)
      have h1 := @List.getElem?_eq_getElem _ (sortLevels remapped)
        ((sortLevels remapped).length - 1) (by omega)
      simp only [hfalse, hinc, not_true_eq_false, if_false, List.head?_eq_getElem?,
        List.getLast?_eq_getElem?, h0, h1, Option.map_some', ne_eq, Option.some.injEq,
        Bool.false_eq_true]
    · have htrue : litersLoop (sortLevels remapped) 0 (sortLevels remapped).length = true :=
        hloop.mpr hinc
      simp only [htrue, hinc, not_false_eq_true, if_true]

/-! ## Interpolation -/

/-- What validation established about an accepted table. -/
theorem accepted_facts (s : SensorConfig) (levels : List sensorLevel)
    (h : validateLevels s = .ok levels) :
    2 ≤ levels.length ∧ levels.Sorted (fun a b => a.Raw ≤ b.Raw) ∧ litersIncreasing levels
      ∧ levels.head?.map (fun l => l.Raw) = some 1
      ∧ levels.getLast?.map (fun l => l.Raw) = some 4094 := by
  by_cases h2 : s.Levels.length < 2
  · simp [validateLevels, h2] at h
  · cases hre : remapLevels s.MinRaw s.MaxRaw s.Levels with
    | crashed => simp [validateLevels, h2, hre] at h
    | error msg => simp [validateLevels, h2, hre] at h
    | ok remapped =>
      have hlen : remapped.length = s.Levels.length := by
        have hden : wrap64 (s.MaxRaw - s.MinRaw) ≠ 0 := by
          intro h0
          cases hl : s.Levels with
          | nil => simp [hl] at h2
          | cons l rest => simp [hl, remapLevels, remapRaw, h0] at hre
        obtain ⟨r, hr, hrl⟩ := remapLevels_ok s.MinRaw s.MaxRaw hden s.Levels
        rw [hre] at hr
        cases hr
        exact hrl
      rw [validateLevels_eq s remapped hre hlen] at h
      simp only [h2, if_false] at h
      split_ifs at h with h3 h4 h5
      cases h
      refine ⟨?_, ?_, ?_, ?_, ?_⟩
      · rw [length_sortLevels, hlen]; omega
      · haveI : IsTotal sensorLevel (fun a b => a.Raw ≤ b.Raw) :=
          ⟨fun a b => le_total a.Raw b.Raw⟩
        haveI : IsTrans sensorLevel (fun a b => a.Raw ≤ b.Raw) :=
          ⟨fun a b c hab hbc => le_trans hab hbc⟩
        exact List.sorted_insertionSort _ remapped
      · exact h3
      · exact not_not.mp h4
      · exact not_not.mp h5

theorem scanLevels_skip (levels : List sensorLevel) (x : Int) (mid suf : List sensorLevel)
    (hmid : ∀ l ∈ mid, l.Raw < x) :
    ∀ (i : Nat) (level : ℚ),
      scanLevels levels x i (mid ++ suf) level
        = scanLevels levels x (i + mid.length) suf level := by
  induction mid with
  | nil => intro i level; rfl
  | cons l rest ih =>
    intro i level
    have hl : l.Raw < x := hmid l (List.mem_cons_self _ _)
    have h1 : ¬ x = l.Raw := by omega
    have h2 : ¬ x < l.Raw := by omega
    rw [List.cons_append, scanLevels]
    simp only [h1, h2, if_false]
    rw [ih (fun y hy => hmid y (List.mem_cons_of_mem _ hy)), List.length_cons]
    congr 1
    omega

theorem scanLevels_interp (levels : List sensorLevel) (x : Int) (i : Nat)
    (p q : sensorLevel) (rest : List sensorLevel) (level : ℚ) (hi : 0 < i)
    (hp : levels[i - 1]? = some p) (hx : x < q.Raw) :
    scanLevels levels x i (q :: rest) level = .ok (lerp x p q) := by
  have h1 : ¬ x = q.Raw := by omega
  have h2 : ¬ i = 0 := by omega
  simp only [scanLevels, h1, hx, h2, if_false, if_true, hp]

/-- A raw level strictly between two neighbours of the table is interpolated
between them. -/
theorem interpolate_split (levels pre rest : List sensorLevel) (p q : sensorLevel) (x : Int)
    (hsplit : levels = pre ++ p :: q :: rest) (hpre : ∀ l ∈ pre, l.Raw < x)
    (hp : p.Raw < x) (hq : x < q.Raw) :
    interpolate levels x = .ok (lerp x p q) := by
  have hscan : ∀ suf, suf = (pre ++ [p]) ++ q :: rest →
      scanLevels levels x 0 suf 0 = .ok (lerp x p q) := by
    intro suf hsuf
    rw [hsuf, scanLevels_skip levels x (pre ++ [p]) (q :: rest)
      (by
        intro l hl
        rcases List.mem_append.mp hl with h | h
        · exact hpre l h
        · rw [List.mem_singleton.mp h]; exact hp)]
    apply scanLevels_interp levels x _ p q rest 0 (by simp) _ hq
    rw [hsplit, List.getElem?_append_right (by simp)]
    simp
  exact hscan levels (by rw [hsplit]; simp)

theorem lerp_between (x : Int) (p q : sensorLevel) (hp : p.Raw < x) (hq : x < q.Raw)
    (hl : p.Liters < q.Liters) :
    p.Liters < lerp x p q ∧ lerp x p q < q.Liters := by
  have ht : (0 : ℚ) < ((x - p.Raw : Int) : ℚ) := by exact_mod_cast (by omega : 0 < x - p.Raw)
  have hd : (0 : ℚ) < ((q.Raw - p.Raw : Int) : ℚ) := by
    exact_mod_cast (by omega : 0 < q.Raw - p.Raw)
  have htd : ((x - p.Raw : Int) : ℚ) < ((q.Raw - p.Raw : Int) : ℚ) := by
    exact_mod_cast (by omega : x - p.Raw < q.Raw - p.Raw)
  have ha : 0 < q.Liters - p.Liters := by linarith
  unfold lerp
  constructor
  · have : 0 < ((x - p.Raw : Int) : ℚ) * (q.Liters - p.Liters) / ((q.Raw - p.Raw : Int) : ℚ) :=
      div_pos (mul_pos ht ha) hd
    linarith
  · have : ((x - p.Raw : Int) : ℚ) * (q.Liters - p.Liters) / ((q.Raw - p.Raw : Int) : ℚ)
        < q.Liters - p.Liters := by
      rw [div_lt_iff₀ hd]
      nlinarith
    linarith

theorem raw_bounds (levels : List sensorLevel) (hs : levels.Sorted (fun a b => a.Raw ≤ b.Raw))
    (hfirst : levels.head?.map (fun l => l.Raw) = some 1)
    (hlast : levels.getLast?.map (fun l => l.Raw) = some 4094)
    (k : Nat) (hk : k < levels.length) : 1 ≤ levels[k].Raw ∧ levels[k].Raw ≤ 4094 := by
  have h0 := @List.getElem?_eq_getElem _ levels 0 (by omega)
  have h1 := @List.getElem?_eq_getElem _ levels (levels.length - 1) (by omega)
  rw [List.head?_eq_getElem?, h0] at hfirst
  rw [List.getLast?_eq_getElem?, h1] at hlast
  simp only [Option.map_some', Option.some.injEq] at hfirst hlast
  have hp := List.pairwise_iff_getElem.mp hs
  constructor
  · rcases Nat.eq_zero_or_pos k with h | h
    · subst h; omega
    · have := hp 0 k (by omega) hk h
      omega
  · rcases Nat.lt_or_ge k (levels.length - 1) with h | h
    · have := hp k (levels.length - 1) hk (by omega) h
      omega
    · have hk2 : k = levels.length - 1 := by omega
      subst hk2; omega

theorem raw_bounds_mem (levels : List sensorLevel)
    (hs : levels.Sorted (fun a b => a.Raw ≤ b.Raw))
    (hfirst : levels.head?.map (fun l => l.Raw) = some 1)
    (hlast : levels.getLast?.map (fun l => l.Raw) = some 4094)
    (l : sensorLevel) (hl : l ∈ levels) : 1 ≤ l.Raw ∧ l.Raw ≤ 4094 := by
  obtain ⟨k, hk, rfl⟩ := List.mem_iff_getElem.mp hl
  exact raw_bounds levels hs hfirst hlast k hk

/-- C5: in an accepted table, a raw level strictly between the remapped raws of
two adjacent points `p` and `q` gets the liters
`(rawLevel - p.raw) * (q.liters - p.liters) / (q.raw - p.raw) + p.liters`,
which lies strictly between `p.liters` and `q.liters`; these are the liters
published for a frame with that raw level. -/
theorem interpolate_between (s : SensorConfig) (levels pre rest : List sensorLevel)
    (p q : sensorLevel) (x temp : Int) (hacc : validateLevels s = .ok levels)
    (hsplit : levels = pre ++ p :: q :: rest) (hp : p.Raw < x) (hq : x < q.Raw) :
    interpolate levels x
        = .ok (((x : ℚ) - p.Raw) * (q.Liters - p.Liters) / ((q.Raw : ℚ) - p.Raw) + p.Liters)
      ∧ p.Liters < ((x : ℚ) - p.Raw) * (q.Liters - p.Liters) / ((q.Raw : ℚ) - p.Raw) + p.Liters
      ∧ ((x : ℚ) - p.Raw) * (q.Liters - p.Liters) / ((q.Raw : ℚ) - p.Raw) + p.Liters < q.Liters
      ∧ observe ⟨s.Address, levels⟩ temp x
          = .ok ⟨temp, x,
              ((x : ℚ) - p.Raw) * (q.Liters - p.Liters) / ((q.Raw : ℚ) - p.Raw) + p.Liters,
              0, 0⟩ := by
  obtain ⟨_, hs, hinc, hfirst, hlast⟩ := accepted_facts s levels hacc
  have hlerp : lerp x p q
      = ((x : ℚ) - p.Raw) * (q.Liters - p.Liters) / ((q.Raw : ℚ) - p.Raw) + p.Liters := by
    unfold lerp
    push_cast
    rfl
  have hpre : ∀ l ∈ pre, l.Raw < x := by
    intro l hl
    rw [hsplit] at hs
    have := (List.pairwise_append.mp hs).2.2 l hl p (List.mem_cons_self _ _)
    omega
  have hpq : p.Liters < q.Liters := by
    unfold litersIncreasing at hinc
    rw [hsplit] at hinc
    exact (List.chain'_cons.mp (List.chain'_split.mp hinc).2).1
  have hint := interpolate_split levels pre rest p q x hsplit hpre hp hq
  have hbt := lerp_between x p q hp hq hpq
  rw [hlerp] at hint hbt
  have hpm : p ∈ levels := by rw [hsplit]; simp
  have hqm : q ∈ levels := by rw [hsplit]; simp
  have hpb := raw_bounds_mem levels hs hfirst hlast p hpm
  have hqb := raw_bounds_mem levels hs hfirst hlast q hqm
  have hx0 : ¬ x = 0 := by omega
  have hx1 : ¬ x = 4095 := by omega
  refine ⟨hint, hbt.1, hbt.2, ?_⟩
  simp only [observe, hx0, hx1, if_false, hint, Int.cast_zero]

/-- Raw level 2047 between the points (1, 0 L) and (4094, 1000 L). -/
theorem interpolate_between_witness :
    validateLevels ⟨"tank", 1, 0, 4094, [⟨0, 0⟩, ⟨4094, 1000⟩]⟩
        = .ok [⟨1, 0⟩, ⟨4094, 1000⟩]
      ∧ interpolate [⟨1, 0⟩, ⟨4094, 1000⟩] 2047
        = .ok ((((2047 : Int) : ℚ) - ((1 : Int) : ℚ)) * ((1000 : ℚ) - 0)
            / ((((4094 : Int) : ℚ)) - ((1 : Int) : ℚ)) + 0) :=
  ⟨by decide,
    (interpolate_between ⟨"tank", 1, 0, 4094, [⟨0, 0⟩, ⟨4094, 1000⟩]⟩
      [⟨1, 0⟩, ⟨4094, 1000⟩] [] [] ⟨1, 0⟩ ⟨4094, 1000⟩ 2047 20 (by decide) rfl
      (by decide) (by decide)).1⟩

/-- When the remapped raws of the table increase strictly, the interpolation at
the raw of a point is that point's liters. -/
theorem interpolate_exact_of_strict (levels pre rest : List sensorLevel) (p : sensorLevel)
    (hsplit : levels = pre ++ p :: rest)
    (hstrict : levels.Pairwise (fun a b => a.Raw < b.Raw)) :
    interpolate levels p.Raw = .ok p.Liters := by
  rw [hsplit] at hstrict
  have hpre : ∀ l ∈ pre, l.Raw < p.Raw := fun l hl =>
    (List.pairwise_append.mp hstrict).2.2 l hl p (List.mem_cons_self _ _)
  have hrest : ∀ l ∈ rest, p.Raw < l.Raw := fun l hl =>
    (List.pairwise_cons.mp (List.pairwise_append.mp hstrict).2.1).1 l hl
  have hscan : ∀ suf, suf = pre ++ p :: rest →
      scanLevels levels p.Raw 0 suf 0 = .ok p.Liters := by
    intro suf hsuf
    rw [hsuf, scanLevels_skip levels p.Raw pre (p :: rest) hpre, scanLevels]
    simp only [if_true]
    cases rest with
    | nil => rfl
    | cons q rest2 =>
      have hq : p.Raw < q.Raw := hrest q (List.mem_cons_self _ _)
      rw [scanLevels_interp levels p.Raw _ p q rest2 p.Liters (by omega)
        (by rw [hsplit, List.getElem?_append_right (by simp)]; simp) hq]
      simp [lerp]
  exact hscan levels hsplit

/-- C4 fails on the code: a table with the distinct configured raws 0 and 1,
which the remap for `MinRaw = 0`, `MaxRaw = 8186` sends both to 1, is accepted
by validation, and the interpolation at raw 1 returns the liters of the second
point, not those of the first. -/
theorem duplicate_raw_not_exact :
    validateLevels ⟨"tank", 1, 0, 8186, [⟨0, 0⟩, ⟨1, 1⟩, ⟨8186, 2⟩]⟩
        = .ok [⟨1, 0⟩, ⟨1, 1⟩, ⟨4094, 2⟩]
      ∧ interpolate [⟨1, 0⟩, ⟨1, 1⟩, ⟨4094, 2⟩] 1 = .ok 1
      ∧ interpolate [⟨1, 0⟩, ⟨1, 1⟩, ⟨4094, 2⟩] 1 ≠ .ok 0 := by
  refine ⟨by decide, ?_, ?_⟩
  · simp [interpolate, scanLevels, lerp]
  · simp [interpolate, scanLevels, lerp]

/-! ## Observation -/

/-- C9: for every sensor at the frame's address, whatever its table, a frame
with raw level 0 publishes line-damage flag 1, liters 0 and water flag 0. -/
theorem publish_raw_zero (sensorsMap : Int → Option sensor) (s : sensor) (f : Frame)
    (hs : sensorsMap f.address = some s) (hraw : f.rawLevel = 0) :
    publish sensorsMap f = .ok (some ⟨f.temp, 0, 0, 1, 0⟩) := by
  have hobs : observe s f.temp f.rawLevel = .ok ⟨f.temp, 0, 0, 1, 0⟩ := by
    rw [hraw]
    simp [observe]
  unfold publish
  rw [hs]
  simp only [hobs]

/-- A frame with raw level 0 for the sensor registered at address 1. -/
theorem publish_raw_zero_witness :
    (fun a : Int => if a = 1 then some (⟨1, []⟩ : sensor) else none) (⟨1, 20, 0⟩ : Frame).address
        = some ⟨1, []⟩
      ∧ publish (fun a : Int => if a = 1 then some (⟨1, []⟩ : sensor) else none) ⟨1, 20, 0⟩
        = .ok (some ⟨((20 : Int) : ℚ), 0, 0, 1, 0⟩) :=
  ⟨rfl, publish_raw_zero (fun a : Int => if a = 1 then some (⟨1, []⟩ : sensor) else none)
    ⟨1, []⟩ ⟨1, 20, 0⟩ rfl rfl⟩

/-- C10: for every sensor at the frame's address, a frame with raw level 4095
publishes liters 0, line-damage flag 0 and water flag 0; and whatever the raw
level, every observation that is published has water flag 0. -/
theorem publish_water_flag (sensorsMap : Int → Option sensor) (s : sensor) (f : Frame)
    (hs : sensorsMap f.address = some s) :
    (f.rawLevel = 4095 → publish sensorsMap f = .ok (some ⟨f.temp, 4095, 0, 0, 0⟩))
      ∧ ∀ o, publish sensorsMap f = .ok (some o) → o.errWater = 0 := by
  constructor
  · intro hraw
    simp [publish, hs, observe, hraw]
  · intro o ho
    simp only [publish, hs, observe] at ho
    split_ifs at ho with h0 h1
    · cases ho; simp
    · cases ho; simp
    · cases hi : interpolate s.levels f.rawLevel with
      | crashed => simp [hi] at ho
      | error msg => simp [hi] at ho
      | ok level =>
        simp only [hi] at ho
        cases ho; simp

/-- A frame with raw level 4095 for the sensor registered at address 1. -/
theorem publish_water_flag_witness :
    (fun a : Int => if a = 1 then some (⟨1, []⟩ : sensor) else none) (⟨1, 20, 4095⟩ : Frame).address
        = some ⟨1, []⟩
      ∧ publish (fun a : Int => if a = 1 then some (⟨1, []⟩ : sensor) else none) ⟨1, 20, 4095⟩
        = .ok (some ⟨((20 : Int) : ℚ), 4095, 0, 0, 0⟩) :=
  ⟨rfl, (publish_water_flag (fun a : Int => if a = 1 then some (⟨1, []⟩ : sensor) else none)
    ⟨1, []⟩ ⟨1, 20, 4095⟩ rfl).1 rfl⟩

/-! ## End-to-end example -/

/-- C11: the sensor with `MinRaw = 0`, `MaxRaw = 4094` and the points (0, 0 L)
and (4094, 1000 L) is accepted with the remapped raws 1 and 4094, and a frame
for it with raw level 2047 publishes 2046000/4093 liters, which is within 0.5
of 500. -/
theorem tank_example (name : String) (addr : Int) (sensorsMap : Int → Option sensor)
    (s : sensor) (f : Frame)
    (hnew : newSensor ⟨name, addr, 0, 4094, [⟨0, 0⟩, ⟨4094, 1000⟩]⟩ = .ok s)
    (hs : sensorsMap f.address = some s) (hraw : f.rawLevel = 2047) :
    s.levels = [⟨1, 0⟩, ⟨4094, 1000⟩]
      ∧ (∃ o, publish sensorsMap f = .ok (some o) ∧ o.litersLevel = 2046000 / 4093
          ∧ |o.litersLevel - 500| ≤ 1 / 2 ∧ o.errLineDamage = 0 ∧ o.errWater = 0) := by
  have hval : validateLevels ⟨name, addr, 0, 4094, [⟨0, 0⟩, ⟨4094, 1000⟩]⟩
      = .ok [⟨1, 0⟩, ⟨4094, 1000⟩] := by
    have : validateLevels ⟨name, addr, 0, 4094, [⟨0, 0⟩, ⟨4094, 1000⟩]⟩
        = validateLevels ⟨"", 0, 0, 4094, [⟨0, 0⟩, ⟨4094, 1000⟩]⟩ := rfl
    rw [this]
    decide
  simp only [newSensor, hval, Outcome.ok.injEq] at hnew
  subst hnew
  refine ⟨rfl, ?_⟩
  have hint : interpolate [⟨1, 0⟩, ⟨4094, 1000⟩] 2047 = .ok (2046000 / 4093) := by
    simp [interpolate, scanLevels, lerp]
    norm_num
  refine ⟨⟨f.temp, 2047, 2046000 / 4093, 0, 0⟩, ?_, rfl, ?_, rfl, rfl⟩
  · simp [publish, hs, observe, hraw, hint]
  · rw [abs_le]
    constructor <;> norm_num

/-- The frame with bytes 0xff, 0x07 in the level field, for the sensor at
address 1. -/
theorem tank_example_witness :
    newSensor ⟨"tank", 1, 0, 4094, [⟨0, 0⟩, ⟨4094, 1000⟩]⟩
        = .ok ⟨1, [⟨1, 0⟩, ⟨4094, 1000⟩]⟩
      ∧ (decodeFrame [0x3e, 1, 0x06, 20, 0xff, 0x07, 0, 0, 56]).rawLevel = 2047
      ∧ ∃ o, publish (fun a : Int => if a = 1 then some ⟨1, [⟨1, 0⟩, ⟨4094, 1000⟩]⟩ else none)
            (decodeFrame [0x3e, 1, 0x06, 20, 0xff, 0x07, 0, 0, 56]) = .ok (some o)
          ∧ o.litersLevel = 2046000 / 4093
          ∧ |o.litersLevel - 500| ≤ 1 / 2 ∧ o.errLineDamage = 0 ∧ o.errWater = 0 :=
  ⟨by decide, by decide,
    (tank_example "tank" 1 (fun a : Int => if a = 1 then some ⟨1, [⟨1, 0⟩, ⟨4094, 1000⟩]⟩ else none)
      ⟨1, [⟨1, 0⟩, ⟨4094, 1000⟩]⟩ (decodeFrame [0x3e, 1, 0x06, 20, 0xff, 0x07, 0, 0, 56])
      (by decide) (by decide) (by decide)).2⟩

/-! ## Remap -/

theorem wrap64_eq_self (x : Int) (h1 : -2 ^ 63 ≤ x) (h2 : x < 2 ^ 63) : wrap64 x = x := by
  unfold wrap64
  omega

/-- Without overflow the remap is the quotient of the specification. -/
theorem remapRaw_eq (raw minRaw maxRaw : Int)
    (hlt : minRaw < maxRaw) (hbound : (maxRaw - minRaw) * 4093 < 2 ^ 63)
    (h1 : minRaw ≤ raw) (h2 : raw ≤ maxRaw) :
    remapRaw raw minRaw maxRaw = .ok ((raw - minRaw) * 4093 / (maxRaw - minRaw) + 1)
      ∧ 0 ≤ (raw - minRaw) * 4093 / (maxRaw - minRaw)
      ∧ (raw - minRaw) * 4093 / (maxRaw - minRaw) ≤ 4093 := by
  have hD : 0 < maxRaw - minRaw := by omega
  have hq0 : 0 ≤ (raw - minRaw) * 4093 / (maxRaw - minRaw) :=
    Int.ediv_nonneg (by omega) (by omega)
  have hq1 : (raw - minRaw) * 4093 / (maxRaw - minRaw) ≤ 4093 :=
    Int.ediv_le_of_le_mul hD (by omega)
  have hw1 : wrap64 (raw - minRaw) = raw - minRaw := wrap64_eq_self _ (by omega) (by omega)
  have hw2 : wrap64 ((raw - minRaw) * 4093) = (raw - minRaw) * 4093 :=
    wrap64_eq_self _ (by omega) (by omega)
  have hw3 : wrap64 (maxRaw - minRaw) = maxRaw - minRaw :=
    wrap64_eq_self _ (by omega) (by omega)
  have hdiv : Int.tdiv ((raw - minRaw) * 4093) (maxRaw - minRaw)
      = (raw - minRaw) * 4093 / (maxRaw - minRaw) :=
    Int.tdiv_eq_ediv (by omega) (by omega)
  have hw4 : wrap64 ((raw - minRaw) * 4093 / (maxRaw - minRaw))
      = (raw - minRaw) * 4093 / (maxRaw - minRaw) := wrap64_eq_self _ (by omega) (by omega)
  have hw5 : wrap64 ((raw - minRaw) * 4093 / (maxRaw - minRaw) + 1)
      = (raw - minRaw) * 4093 / (maxRaw - minRaw) + 1 := wrap64_eq_self _ (by omega) (by omega)
  have hne : ¬ maxRaw - minRaw = 0 := by omega
  refine ⟨?_, hq0, hq1⟩
  simp only [remapRaw, hw1, hw2, hw3, hdiv, hw4, hw5, hne, if_false]

/-- C16 as stated fails: with `MinRaw = 0` and `MaxRaw = 2^62` the product
`(raw - MinRaw) * 4093` overflows the 64-bit `int`, and `MaxRaw` is sent to 2,
not to 4094. -/
theorem remapRaw_overflow :
    isInt64 0 ∧ isInt64 (2 ^ 62) ∧ (0 : Int) < 2 ^ 62
      ∧ remapRaw (2 ^ 62) 0 (2 ^ 62) = .ok 2
      ∧ remapRaw (2 ^ 62) 0 (2 ^ 62) ≠ .ok 4094 := by
  decide

/-- C16, amended: for `MinRaw < MaxRaw` with `(MaxRaw - MinRaw) * 4093` below
`2^63` (no overflow on line 164) the remap sends `MinRaw` to 1 and `MaxRaw` to
4094, maps every raw between them to the truncated quotient
`(raw - MinRaw) * 4093 / (MaxRaw - MinRaw) + 1`, which lies in [1,4094], and is
non-decreasing in raw; with the default bounds 1 and 4094 it is the
identity on [1,4094]. -/
theorem remapRaw_range (minRaw maxRaw : Int)
    (hlt : minRaw < maxRaw) (hbound : (maxRaw - minRaw) * 4093 < 2 ^ 63) :
    remapRaw minRaw minRaw maxRaw = .ok 1
      ∧ remapRaw maxRaw minRaw maxRaw = .ok 4094
      ∧ (∀ raw, minRaw ≤ raw → raw ≤ maxRaw →
          ∃ v, remapRaw raw minRaw maxRaw = .ok v ∧ 1 ≤ v ∧ v ≤ 4094
            ∧ v = (raw - minRaw) * 4093 / (maxRaw - minRaw) + 1)
      ∧ (∀ raw1 raw2 v1 v2, minRaw ≤ raw1 → raw1 ≤ raw2 → raw2 ≤ maxRaw →
          remapRaw raw1 minRaw maxRaw = .ok v1 → remapRaw raw2 minRaw maxRaw = .ok v2 →
          v1 ≤ v2)
      ∧ (∀ raw, 1 ≤ raw → raw ≤ 4094 → remapRaw raw 1 4094 = .ok raw) := by
  have hD : 0 < maxRaw - minRaw := by omega
  refine ⟨?_, ?_, ?_, ?_, ?_⟩
  · rw [(remapRaw_eq minRaw minRaw maxRaw hlt hbound (le_refl _) (le_of_lt hlt)).1]
    simp
  · rw [(remapRaw_eq maxRaw minRaw maxRaw hlt hbound (le_of_lt hlt) (le_refl _)).1,
      Int.mul_ediv_cancel_left _ (by omega)]
    rfl
  · intro raw h1 h2
    obtain ⟨h3, h4, h5⟩ := remapRaw_eq raw minRaw maxRaw hlt hbound h1 h2
    exact ⟨_, h3, by omega, by omega, rfl⟩
  · intro raw1 raw2 v1 v2 h1 h12 h2 e1 e2
    rw [(remapRaw_eq raw1 minRaw maxRaw hlt hbound h1 (by omega)).1] at e1
    rw [(remapRaw_eq raw2 minRaw maxRaw hlt hbound (by omega) h2).1] at e2
    cases e1
    cases e2
    have := Int.ediv_le_ediv hD (by omega : (raw1 - minRaw) * 4093 ≤ (raw2 - minRaw) * 4093)
    omega
  · intro raw h1 h2
    rw [(remapRaw_eq raw 1 4094 (by decide) (by decide) h1 h2).1]
    have : (raw - 1) * 4093 / (4094 - 1) = raw - 1 := by
      have h : (4094 : Int) - 1 = 4093 := by norm_num
      rw [h]
      exact Int.mul_ediv_cancel _ (by decide)
    rw [this]
    simp

/-- The bounds 0 and 4094 of the end-to-end example, and raw 2047. -/
theorem remapRaw_range_witness :
    (0 : Int) < 4094 ∧ ((4094 : Int) - 0) * 4093 < 2 ^ 63
      ∧ remapRaw 0 0 4094 = .ok 1 ∧ remapRaw 4094 0 4094 = .ok 4094 :=
  ⟨by decide, by decide,
    (remapRaw_range 0 4094 (by decide) (by decide)).1,
    (remapRaw_range 0 4094 (by decide) (by decide)).2.1⟩

/-! ## Points of an accepted table -/

theorem liters_pairwise (levels : List sensorLevel) (h : litersIncreasing levels) :
    levels.Pairwise (fun a b => a.Liters < b.Liters) := by
  haveI : IsTrans sensorLevel (fun a b => a.Liters < b.Liters) :=
    ⟨fun a b c hab hbc => lt_trans hab hbc⟩
  exact List.chain'_iff_pairwise.mp h

/-- C15 as stated fails: a table whose first point has negative liters is
accepted. -/
theorem negative_liters_accepted :
    validateLevels ⟨"tank", 1, 1, 4094, [⟨1, -5⟩, ⟨4094, 10⟩]⟩
        = .ok [⟨1, -5⟩, ⟨4094, 10⟩]
      ∧ ∃ l ∈ ([⟨1, -5⟩, ⟨4094, 10⟩] : List sensorLevel), l.Liters < 0 := by
  refine ⟨by decide, ⟨1, -5⟩, by simp, by norm_num⟩

/-! ## Checksum: single-byte changes and the shift-register form -/

theorem specStep_low (d acc : Nat) : specStep acc d = specStep 0 ((d ^^^ acc) % 256) := by
  have h256 : (256 : Nat) = 2 ^ 8 := rfl
  unfold specStep
  simp only [Nat.xor_zero, h256, Nat.testBit_mod_two_pow, List.range, List.range.loop,
    List.foldl]
  simp

theorem crc8one_low (d acc : Nat) : crc8one d acc = crc8one ((d ^^^ acc) % 256) 0 := by
  rw [crc8one_eq_specStep, crc8one_eq_specStep, specStep_low]

set_option maxRecDepth 100000 in
theorem table_step_facts :
    ∀ y < 256, crc8one y 0 < 256 ∧ unmix (crc8one y 0) = y
      ∧ crc8one y 0 = (lsbRound 0x8c)^[8] y := by
  decide

theorem crc8one_lt (d acc : Nat) : crc8one d acc < 256 := by
  rw [crc8one_low]
  exact (table_step_facts _ (Nat.mod_lt _ (by decide))).1

theorem crc8one_bytes (d acc : Nat) (hd : d < 256) (hacc : acc < 256) :
    crc8one d acc = crc8one (d ^^^ acc) 0 ∧ d ^^^ acc < 256 := by
  have hx : d ^^^ acc < 2 ^ 8 := Nat.xor_lt_two_pow hd hacc
  have hx2 : d ^^^ acc < 256 := hx
  rw [crc8one_low, Nat.mod_eq_of_lt hx2]
  exact ⟨rfl, hx2⟩

theorem crc8one_injective (d1 d2 c1 c2 : Nat) (hd1 : d1 < 256) (hd2 : d2 < 256)
    (hc1 : c1 < 256) (hc2 : c2 < 256) (h : crc8one d1 c1 = crc8one d2 c2) :
    d1 ^^^ c1 = d2 ^^^ c2 := by
  obtain ⟨e1, l1⟩ := crc8one_bytes d1 c1 hd1 hc1
  obtain ⟨e2, l2⟩ := crc8one_bytes d2 c2 hd2 hc2
  rw [e1, e2] at h
  have u1 := (table_step_facts _ l1).2.1
  have u2 := (table_step_facts _ l2).2.1
  rw [← u1, ← u2, h]

theorem crc8_go_append (xs ys : List Nat) (acc : Nat) :
    crc8.go acc (xs ++ ys) = crc8.go (crc8.go acc xs) ys := by
  induction xs generalizing acc with
  | nil => rfl
  | cons x rest ih => simp [crc8.go, ih]

theorem crc8_go_lt (data : List Nat) : ∀ acc, acc < 256 → crc8.go acc data < 256 := by
  induction data with
  | nil => intro acc h; exact h
  | cons d rest ih => intro acc _; exact ih _ (crc8one_lt d acc)

theorem crc8_go_ne (data : List Nat) (hdata : ∀ d ∈ data, d < 256) :
    ∀ c1 c2, c1 < 256 → c2 < 256 → c1 ≠ c2 → crc8.go c1 data ≠ crc8.go c2 data := by
  induction data with
  | nil => intro c1 c2 _ _ h; exact h
  | cons d rest ih =>
    intro c1 c2 h1 h2 hne
    have hd : d < 256 := hdata d (List.mem_cons_self _ _)
    apply ih (fun x hx => hdata x (List.mem_cons_of_mem _ hx)) _ _
      (crc8one_lt d c1) (crc8one_lt d c2)
    intro heq
    have := crc8one_injective d d c1 c2 hd hd h1 h2 heq
    exact hne (Nat.xor_right_injective this)

/-- C13: two byte sequences that agree except for one position, where they
hold different bytes, have different checksums. -/
theorem crc8_single_byte_change (pre suf : List Nat) (d1 d2 : Nat)
    (hsuf : ∀ x ∈ suf, x < 256) (hd1 : d1 < 256) (hd2 : d2 < 256) (hne : d1 ≠ d2) :
    (pre ++ d1 :: suf).length = (pre ++ d2 :: suf).length
      ∧ crc8 (pre ++ d1 :: suf) ≠ crc8 (pre ++ d2 :: suf) := by
  refine ⟨by simp, ?_⟩
  have hc : crc8.go 0 pre < 256 := crc8_go_lt pre 0 (by decide)
  show crc8.go 0 (pre ++ d1 :: suf) ≠ crc8.go 0 (pre ++ d2 :: suf)
  rw [crc8_go_append, crc8_go_append]
  simp only [crc8.go]
  apply crc8_go_ne suf hsuf _ _ (crc8one_lt _ _) (crc8one_lt _ _)
  intro heq
  have := crc8one_injective d1 d2 _ _ hd1 hd2 hc hc heq
  exact hne (Nat.xor_left_injective this)

/-- Two request frames that differ in the address byte. -/
theorem crc8_single_byte_change_witness :
    crc8 ([0x31] ++ 1 :: [0x06]) ≠ crc8 ([0x31] ++ 2 :: [0x06]) :=
  (crc8_single_byte_change [0x31] [0x06] 1 2 (by decide) (by decide) (by decide)
    (by decide)).2

theorem crc8_go_eq_crcLsb (data : List Nat) (hdata : ∀ d ∈ data, d < 256) :
    ∀ acc, acc < 256 →
      crc8.go acc data = data.foldl (fun crc d => (lsbRound 0x8c)^[8] (crc ^^^ d)) acc := by
  induction data with
  | nil => intro acc _; rfl
  | cons d rest ih =>
    intro acc hacc
    have hd : d < 256 := hdata d (List.mem_cons_self _ _)
    obtain ⟨e1, l1⟩ := crc8one_bytes d acc hd hacc
    have hstep : crc8one d acc = (lsbRound 0x8c)^[8] (acc ^^^ d) := by
      rw [e1, (table_step_facts _ l1).2.2, Nat.xor_comm]
    simp only [crc8.go, List.foldl]
    rw [ih (fun x hx => hdata x (List.mem_cons_of_mem _ hx)) _ (crc8one_lt d acc), hstep]

/-- On byte sequences `crc8` is the reflected shift-register CRC-8 with
polynomial 0x8C. -/
theorem crc8_eq_crcLsb (data : List Nat) (hdata : ∀ d ∈ data, d < 256) :
    crc8 data = crcLsb 0x8c data :=
  crc8_go_eq_crcLsb data hdata 0 (by decide)

/-- C14 as stated fails: it is not true that for every 8-bit polynomial some
byte sequence separates `crc8` from the LSB-first and from the MSB-first CRC-8
with that polynomial; for the polynomial 0x8C no byte sequence separates
`crc8` from the LSB-first CRC-8. -/
theorem crc8_is_polynomial :
    ¬ (∀ p, p < 256 →
        (∃ data, (∀ d ∈ data, d < 256) ∧ crc8 data ≠ crcLsb p data)
          ∧ (∃ data, (∀ d ∈ data, d < 256) ∧ crc8 data ≠ crcMsb p data)) := by
  intro h
  obtain ⟨⟨data, hdata, hne⟩, _⟩ := h 0x8c (by decide)
  exact hne (crc8_eq_crcLsb data hdata)

set_option maxRecDepth 100000 in
theorem crc8_other_polynomials :
    ∀ p < 256, (p ≠ 0x8c → crc8 [0x80] ≠ crcLsb p [0x80])
      ∧ (crc8 [1] ≠ crcMsb p [1] ∨ crc8 [4] ≠ crcMsb p [4]) := by
  decide

/-- C14, amended: `crc8` is the reflected (LSB-first) shift-and-XOR CRC-8 with
generator polynomial 0x8C (x^8 + x^5 + x^4 + 1), initial value 0 and no final
XOR, on every byte sequence; for every other 8-bit polynomial a byte sequence
separates it from the LSB-first CRC-8, and for every 8-bit polynomial one
separates it from the MSB-first CRC-8. -/
theorem crc8_is_reflected_8c :
    (∀ data : List Nat, (∀ d ∈ data, d < 256) → crc8 data = crcLsb 0x8c data)
      ∧ (∀ p, p < 256 → p ≠ 0x8c →
          ∃ data : List Nat, (∀ d ∈ data, d < 256) ∧ crc8 data ≠ crcLsb p data)
      ∧ (∀ p, p < 256 →
          ∃ data : List Nat, (∀ d ∈ data, d < 256) ∧ crc8 data ≠ crcMsb p data) := by
  refine ⟨crc8_eq_crcLsb, ?_, ?_⟩
  · intro p hp hne
    exact ⟨[0x80], by decide, (crc8_other_polynomials p hp).1 hne⟩
  · intro p hp
    rcases (crc8_other_polynomials p hp).2 with h | h
    · exact ⟨[1], by decide, h⟩
    · exact ⟨[4], by decide, h⟩

/-- The first three bytes of the request frame for address 1. -/
theorem crc8_is_reflected_8c_witness :
    (∀ d ∈ ([0x31, 1, 0x06] : List Nat), d < 256)
      ∧ crc8 [0x31, 1, 0x06] = crcLsb 0x8c [0x31, 1, 0x06] :=
  ⟨by decide, crc8_is_reflected_8c.1 [0x31, 1, 0x06] (by decide)⟩

/-! ## Poll writer -/

theorem writeMsg_complete (msg : List Nat) (rest : List WriteResult) (ns : List Nat) :
    ∀ r, r ≤ msg.length → validAccepts (msg.length - r) ns = true →
      writeMsg msg r (ns.map WriteResult.accepted ++ rest) = (msg.drop r, rest, .done) := by
  induction ns with
  | nil =>
    intro r hr hv
    simp only [validAccepts, decide_eq_true_eq] at hv
    have hge : ¬ r < msg.length := by omega
    have hdrop : msg.drop r = [] := List.drop_eq_nil_of_le (by omega)
    cases rest with
    | nil => simp [writeMsg, hge, hdrop]
    | cons ev rest2 => simp [writeMsg, hge, hdrop]
  | cons n ns ih =>
    intro r hr hv
    simp only [validAccepts, Bool.and_eq_true, decide_eq_true_eq] at hv
    obtain ⟨⟨h1, h2⟩, hv2⟩ := hv
    have hlt : r < msg.length := by omega
    have hv3 : validAccepts (msg.length - (r + n)) ns = true := by
      rw [Nat.sub_add_eq]; exact hv2
    have hih := ih (r + n) (by omega) hv3
    rw [List.map_cons, List.cons_append, writeMsg]
    simp only [hlt, if_true]
    rw [hih]
    simp only [Prod.mk.injEq, and_true]
    rw [← List.drop_drop, List.take_append_drop]

theorem requestFrame_eq (a : Int) (h0 : 0 ≤ a) (h1 : a ≤ 255) :
    requestFrame a = [0x31, a.toNat, 0x06, crc8 [0x31, a.toNat, 0x06]] := by
  have hb : toByte a = a.toNat := by
    unfold toByte
    rw [Int.emod_eq_of_lt h0 (by omega)]
  simp [requestFrame, hb]

theorem requestFrame_length (a : Int) : (requestFrame a).length = 4 := by
  simp [requestFrame]

theorem newSensor_address (c : SensorConfig) (s : sensor) (h : newSensor c = .ok s) :
    s.address = c.Address := by
  unfold newSensor at h
  cases hv : validateLevels c with
  | crashed => simp [hv] at h
  | error msg => simp [hv] at h
  | ok levels =>
    simp only [hv, Outcome.ok.injEq] at h
    rw [← h]

theorem buildSensors_addresses (configs : List SensorConfig) :
    ∀ sensors, buildSensors configs = .ok sensors →
      sensors.map (fun s => s.address) = configs.map (fun c => c.Address) := by
  induction configs with
  | nil =>
    intro sensors h
    simp only [buildSensors, Outcome.ok.injEq] at h
    rw [← h]
    rfl
  | cons c rest ih =>
    intro sensors h
    unfold buildSensors at h
    cases hn : newSensor c with
    | crashed => simp [hn] at h
    | error msg => simp [hn] at h
    | ok s =>
      cases hb : buildSensors rest with
      | crashed => simp [hn, hb] at h
      | error msg => simp [hn, hb] at h
      | ok ss =>
        simp only [hn, hb, Outcome.ok.injEq] at h
        rw [← h]
        simp [newSensor_address c s hn, ih ss hb]

theorem sweep_complete (sensors : List sensor) (rest : List WriteResult) :
    ∀ scripts : List (List Nat), scripts.length = sensors.length →
      (∀ ns ∈ scripts, validAccepts 4 ns = true) →
      sweep sensors (scripts.flatten.map WriteResult.accepted ++ rest)
        = (sensors.flatMap (fun s => requestFrame s.address), rest, .done) := by
  induction sensors with
  | nil =>
    intro scripts hlen _
    have : scripts = [] := List.length_eq_zero.mp (by simpa using hlen)
    subst this
    simp [sweep]
  | cons s ss ih =>
    intro scripts hlen hvalid
    cases scripts with
    | nil => simp at hlen
    | cons ns nss =>
      have hv : validAccepts ((requestFrame s.address).length - 0) ns = true := by
        rw [requestFrame_length]
        exact hvalid ns (List.mem_cons_self _ _)
      have hmsg := writeMsg_complete (requestFrame s.address)
        (nss.flatten.map WriteResult.accepted ++ rest) ns 0 (by omega) hv
      have hrest := ih nss (by simpa using hlen)
        (fun x hx => hvalid x (List.mem_cons_of_mem _ hx))
      rw [List.flatten_cons, List.map_append, List.append_assoc]
      unfold sweep
      rw [hmsg]
      simp only [List.drop_zero, hrest, List.flatMap_cons]

theorem frames_of_configs (configs : List SensorConfig)
    (haddr : ∀ c ∈ configs, 0 ≤ c.Address ∧ c.Address ≤ 255) :
    (configs.map (fun c => c.Address)).flatMap requestFrame
      = configs.flatMap
          (fun c => [0x31, c.Address.toNat, 0x06, crc8 [0x31, c.Address.toNat, 0x06]]) := by
  induction configs with
  | nil => rfl
  | cons c rest ih =>
    have hc := haddr c (List.mem_cons_self _ _)
    rw [List.map_cons, List.flatMap_cons, List.flatMap_cons,
      ih (fun x hx => haddr x (List.mem_cons_of_mem _ hx)), requestFrame_eq _ hc.1 hc.2]

/-- C12: for sensors built from the configuration, with addresses in 0..255,
and for accept counts that lie between 1 and the bytes still unwritten at every
write, the bytes the device accepts for one sensor are its request frame
`[0x31, a, 0x06, crc8 [0x31, a, 0x06]]`, each byte once and in order, and the
bytes of one sweep are the request frames in configuration order. -/
theorem sweep_emits_frames (configs : List SensorConfig) (sensors : List sensor)
    (scripts : List (List Nat)) (hbuild : buildSensors configs = .ok sensors)
    (haddr : ∀ c ∈ configs, 0 ≤ c.Address ∧ c.Address ≤ 255)
    (hlen : scripts.length = configs.length)
    (hvalid : ∀ ns ∈ scripts, validAccepts 4 ns = true) :
    (∀ c ∈ configs, ∀ ns, validAccepts 4 ns = true →
        writeMsg (requestFrame c.Address) 0 (ns.map WriteResult.accepted)
          = ([0x31, c.Address.toNat, 0x06, crc8 [0x31, c.Address.toNat, 0x06]], [], .done))
      ∧ sweep sensors (scripts.flatten.map WriteResult.accepted)
        = (configs.flatMap
            (fun c => [0x31, c.Address.toNat, 0x06, crc8 [0x31, c.Address.toNat, 0x06]]),
          [], .done) := by
  constructor
  · intro c hc ns hns
    have hv : validAccepts ((requestFrame c.Address).length - 0) ns = true := by
      rw [requestFrame_length]; exact hns
    have h := writeMsg_complete (requestFrame c.Address) [] ns 0 (by omega) hv
    have e := requestFrame_eq _ (haddr c hc).1 (haddr c hc).2
    rw [List.append_nil, List.drop_zero] at h
    rw [e] at h ⊢
    exact h
  · have hmap := buildSensors_addresses configs sensors hbuild
    have hl : scripts.length = sensors.length := by
      have := congrArg List.length hmap
      simp only [List.length_map] at this
      omega
    have h := sweep_complete sensors [] scripts hl hvalid
    rw [List.append_nil] at h
    rw [h]
    have hframes : sensors.flatMap (fun s => requestFrame s.address)
        = (sensors.map (fun s => s.address)).flatMap requestFrame := by
      simp [List.flatMap, List.map_map, Function.comp_def]
    rw [hframes, hmap, frames_of_configs configs haddr]

/-- Two sensors at addresses 1 and 2; the first frame is accepted in pieces of
1 and 3 bytes, the second in pieces of 2, 1 and 1 bytes. -/
theorem sweep_emits_frames_witness :
    buildSensors [⟨"a", 1, 0, 4094, [⟨0, 0⟩, ⟨4094, 1000⟩]⟩,
        ⟨"b", 2, 1, 4094, [⟨1, 0⟩, ⟨4094, 50⟩]⟩]
        = .ok [⟨1, [⟨1, 0⟩, ⟨4094, 1000⟩]⟩, ⟨2, [⟨1, 0⟩, ⟨4094, 50⟩]⟩]
      ∧ sweep [⟨1, [⟨1, 0⟩, ⟨4094, 1000⟩]⟩, ⟨2, [⟨1, 0⟩, ⟨4094, 50⟩]⟩]
          (([[1, 3], [2, 1, 1]] : List (List Nat)).flatten.map WriteResult.accepted)
        = (([⟨"a", 1, 0, 4094, [⟨0, 0⟩, ⟨4094, 1000⟩]⟩,
              ⟨"b", 2, 1, 4094, [⟨1, 0⟩, ⟨4094, 50⟩]⟩] : List SensorConfig).flatMap
            (fun c => [0x31, c.Address.toNat, 0x06, crc8 [0x31, c.Address.toNat, 0x06]]),
          [], .done) :=
  ⟨by decide,
    (sweep_emits_frames [⟨"a", 1, 0, 4094, [⟨0, 0⟩, ⟨4094, 1000⟩]⟩,
        ⟨"b", 2, 1, 4094, [⟨1, 0⟩, ⟨4094, 50⟩]⟩]
      [⟨1, [⟨1, 0⟩, ⟨4094, 1000⟩]⟩, ⟨2, [⟨1, 0⟩, ⟨4094, 50⟩]⟩] [[1, 3], [2, 1, 1]]
      (by decide) (by decide) (by decide) (by decide)).2⟩

/-! ## The interpolation scan on [1,4094] -/

/-- Outcome of the scan from any position: either it reaches a point `q` with
`rawLevel < q.Raw`, whose predecessor `p` exists, and interpolates between the
two, or it passes over all the points and ends with the liters of the last
exact match (the initial level when there is none). -/
theorem scanLevels_char (levels : List sensorLevel) (x : Int) :
    ∀ (suf pre : List sensorLevel) (level : ℚ), levels = pre ++ suf →
      (∀ l ∈ pre, l.Raw ≤ x) → (pre = [] → ∀ l, suf.head? = some l → l.Raw ≤ x) →
      (∃ pre2 p q rest2, levels = pre2 ++ p :: q :: rest2 ∧ (∀ l ∈ pre2, l.Raw ≤ x)
          ∧ p.Raw ≤ x ∧ x < q.Raw
          ∧ scanLevels levels x pre.length suf level = .ok (lerp x p q))
        ∨ ((∀ l ∈ suf, l.Raw ≤ x)
          ∧ scanLevels levels x pre.length suf level
            = .ok (suf.foldl (fun lv l => if x = l.Raw then l.Liters else lv) level)) := by
  intro suf
  induction suf with
  | nil =>
    intro pre level _ _ _
    exact Or.inr ⟨by simp, rfl⟩
  | cons l rest ih =>
    intro pre level hsplit hpre hhead
    have hsplit2 : levels = (pre ++ [l]) ++ rest := by rw [hsplit]; simp
    have hlen2 : (pre ++ [l]).length = pre.length + 1 := by simp
    by_cases h1 : x = l.Raw
    · have hpre2 : ∀ y ∈ pre ++ [l], y.Raw ≤ x := by
        intro y hy
        rcases List.mem_append.mp hy with h | h
        · exact hpre y h
        · rw [List.mem_singleton.mp h]; omega
      have hih := ih (pre ++ [l]) l.Liters hsplit2 hpre2 (by simp)
      rw [hlen2] at hih
      rw [scanLevels]
      simp only [h1, if_true, List.foldl_cons]
      rcases hih with ⟨pre2, p, q, rest2, e1, e2, e3, e4, e5⟩ | ⟨e1, e2⟩
      · exact Or.inl ⟨pre2, p, q, rest2, e1, by rwa [h1] at e2, by rwa [h1] at e3,
          by rwa [h1] at e4, by rwa [h1] at e5⟩
      · refine Or.inr ⟨?_, by rwa [h1] at e2⟩
        intro y hy
        rcases List.mem_cons.mp hy with h | h
        · rw [h]
        · have := e1 y h
          rwa [h1] at this
    · by_cases h2 : x < l.Raw
      · have hne : pre ≠ [] := by
          intro hnil
          have := hhead hnil l rfl
          omega
        rcases List.eq_nil_or_concat pre with hnil | ⟨pre0, p, hp⟩
        · exact absurd hnil hne
        · rw [List.concat_eq_append] at hp
          have hlen : pre.length = pre0.length + 1 := by rw [hp]; simp
          have hsplit3 : levels = pre0 ++ p :: l :: rest := by rw [hsplit, hp]; simp
          have hget : levels[pre.length - 1]? = some p := by
            rw [hlen, hsplit3, List.getElem?_append_right (by simp)]
            simp
          refine Or.inl ⟨pre0, p, l, rest, hsplit3, ?_, ?_, h2, ?_⟩
          · intro y hy
            exact hpre y (by rw [hp]; exact List.mem_append_left _ hy)
          · exact hpre p (by rw [hp]; simp)
          · exact scanLevels_interp levels x pre.length p l rest level (by omega) hget h2
      · have hpre2 : ∀ y ∈ pre ++ [l], y.Raw ≤ x := by
          intro y hy
          rcases List.mem_append.mp hy with h | h
          · exact hpre y h
          · rw [List.mem_singleton.mp h]; omega
        have hih := ih (pre ++ [l]) level hsplit2 hpre2 (by simp)
        rw [hlen2] at hih
        rw [scanLevels]
        simp only [h1, h2, if_false, List.foldl_cons]
        rcases hih with ⟨pre2, p, q, rest2, e1, e2, e3, e4, e5⟩ | ⟨e1, e2⟩
        · exact Or.inl ⟨pre2, p, q, rest2, e1, e2, e3, e4, e5⟩
        · refine Or.inr ⟨?_, e2⟩
          intro y hy
          rcases List.mem_cons.mp hy with h | h
          · rw [h]; omega
          · exact e1 y h

theorem split_getElem? (levels pre rest : List sensorLevel) (p q : sensorLevel)
    (hsplit : levels = pre ++ p :: q :: rest) :
    levels[pre.length]? = some p ∧ levels[pre.length + 1]? = some q := by
  constructor
  · rw [hsplit, List.getElem?_append_right (by simp)]
    simp
  · rw [hsplit, List.getElem?_append_right (by simp)]
    simp

/-- The scan of the whole table, by index: it interpolates between the points
at `a` and `a + 1`, where every point up to `a` has a raw not above the raw
level, or it ends after the last point. -/
theorem interpolate_char (levels : List sensorLevel) (x : Int) (first : sensorLevel)
    (hhead : levels.head? = some first) (hfirst : first.Raw ≤ x) :
    (∃ a p q, levels[a]? = some p ∧ levels[a + 1]? = some q
        ∧ (∀ k l, k ≤ a → levels[k]? = some l → l.Raw ≤ x) ∧ x < q.Raw
        ∧ interpolate levels x = .ok (lerp x p q))
      ∨ ((∀ l ∈ levels, l.Raw ≤ x)
        ∧ interpolate levels x
          = .ok (levels.foldl (fun lv l => if x = l.Raw then l.Liters else lv) 0)) := by
  have h := scanLevels_char levels x levels [] 0 rfl (fun _ hl => absurd hl (List.not_mem_nil _))
    (fun _ l hl => by
      rw [hhead] at hl
      cases hl
      exact hfirst)
  rcases h with ⟨pre, p, q, rest, e1, e2, e3, e4, e5⟩ | ⟨e1, e2⟩
  · obtain ⟨g1, g2⟩ := split_getElem? levels pre rest p q e1
    refine Or.inl ⟨pre.length, p, q, g1, g2, ?_, e4, e5⟩
    intro k l hk hl
    rcases Nat.lt_or_ge k pre.length with hlt | hge
    · rw [e1, List.getElem?_append_left hlt] at hl
      exact e2 l (List.getElem?_mem hl)
    · have hk2 : k = pre.length := by omega
      rw [hk2, g1] at hl
      cases hl
      exact e3
  · exact Or.inr ⟨e1, e2⟩

theorem liters_index (levels : List sensorLevel) (hinc : litersIncreasing levels)
    (i j : Nat) (a b : sensorLevel) (ha : levels[i]? = some a) (hb : levels[j]? = some b)
    (hij : i < j) : a.Liters < b.Liters := by
  obtain ⟨hi, rfl⟩ := List.getElem?_eq_some.mp ha
  obtain ⟨hj, rfl⟩ := List.getElem?_eq_some.mp hb
  exact List.pairwise_iff_getElem.mp (liters_pairwise levels hinc) i j hi hj hij

theorem liters_index_le (levels : List sensorLevel) (hinc : litersIncreasing levels)
    (i j : Nat) (a b : sensorLevel) (ha : levels[i]? = some a) (hb : levels[j]? = some b)
    (hij : i ≤ j) : a.Liters ≤ b.Liters := by
  rcases Nat.lt_or_ge i j with h | h
  · exact le_of_lt (liters_index levels hinc i j a b ha hb h)
  · have : i = j := by omega
    subst this
    rw [ha] at hb
    cases hb
    exact le_refl _

theorem foldl_last_match (levels : List sensorLevel) (x : Int) (last : sensorLevel)
    (level : ℚ) (hlast : levels.getLast? = some last) (hx : x = last.Raw) :
    levels.foldl (fun lv l => if x = l.Raw then l.Liters else lv) level = last.Liters := by
  obtain ⟨init, rfl⟩ := List.getLast?_eq_some_iff.mp hlast
  rw [List.foldl_append]
  simp [hx]

theorem lerp_bounds (x : Int) (p q : sensorLevel) (hp : p.Raw ≤ x) (hq : x < q.Raw)
    (hl : p.Liters < q.Liters) :
    p.Liters ≤ lerp x p q ∧ lerp x p q < q.Liters := by
  rcases lt_or_eq_of_le hp with h | h
  · exact ⟨le_of_lt (lerp_between x p q h hq hl).1, (lerp_between x p q h hq hl).2⟩
  · have : lerp x p q = p.Liters := by simp [lerp, h]
    rw [this]
    exact ⟨le_refl _, hl⟩

theorem lerp_eq (x : Int) (p q : sensorLevel) :
    lerp x p q = ((x : ℚ) - p.Raw) * (q.Liters - p.Liters) / ((q.Raw : ℚ) - p.Raw)
      + p.Liters := by
  unfold lerp
  push_cast
  rfl

theorem accepted_ends (s : SensorConfig) (levels : List sensorLevel)
    (hacc : validateLevels s = .ok levels) :
    litersIncreasing levels ∧ ∃ first last, levels.head? = some first
      ∧ levels.getLast? = some last ∧ first.Raw = 1 ∧ last.Raw = 4094
      ∧ levels[0]? = some first ∧ levels[levels.length - 1]? = some last := by
  obtain ⟨_, _, hinc, hfirst, hlast⟩ := accepted_facts s levels hacc
  refine ⟨hinc, ?_⟩
  cases hh : levels.head? with
  | none => simp [hh] at hfirst
  | some first =>
    cases hl : levels.getLast? with
    | none => simp [hl] at hlast
    | some last =>
      refine ⟨first, last, rfl, rfl, by simpa [hh] using hfirst, by simpa [hl] using hlast,
        ?_, ?_⟩
      · rw [← List.head?_eq_getElem?]; exact hh
      · rw [← List.getLast?_eq_getElem?]; exact hl

theorem observe_in_range (addr : Int) (levels : List sensorLevel) (temp x : Int)
    (result : ℚ) (h1 : 1 ≤ x) (h2 : x ≤ 4094) (hint : interpolate levels x = .ok result) :
    observe ⟨addr, levels⟩ temp x = .ok ⟨temp, x, result, 0, 0⟩ := by
  have hx0 : ¬ x = 0 := by omega
  have hx1 : ¬ x = 4095 := by omega
  simp only [observe, hx0, hx1, if_false, hint, Int.cast_zero]

theorem lerp_strict_mono (x1 x2 : Int) (p q : sensorLevel) (hx : x1 < x2)
    (hd : p.Raw < q.Raw) (hl : p.Liters < q.Liters) : lerp x1 p q < lerp x2 p q := by
  have hd2 : (0 : ℚ) < ((q.Raw - p.Raw : Int) : ℚ) := by
    exact_mod_cast (by omega : 0 < q.Raw - p.Raw)
  have hx2 : ((x1 - p.Raw : Int) : ℚ) < ((x2 - p.Raw : Int) : ℚ) := by
    exact_mod_cast (by omega : x1 - p.Raw < x2 - p.Raw)
  have ha : 0 < q.Liters - p.Liters := by linarith
  unfold lerp
  have hnum : ((x1 - p.Raw : Int) : ℚ) * (q.Liters - p.Liters)
      < ((x2 - p.Raw : Int) : ℚ) * (q.Liters - p.Liters) := mul_lt_mul_of_pos_right hx2 ha
  have := div_lt_div_of_pos_right hnum hd2
  linarith

/-- C20: for an accepted table the liters computed for raw levels in [1,4094]
increase strictly with the raw level. -/
theorem liters_strictly_increasing (s : SensorConfig) (levels : List sensorLevel)
    (r1 r2 : Int) (hacc : validateLevels s = .ok levels) (h1 : 1 ≤ r1) (h12 : r1 < r2)
    (h2 : r2 ≤ 4094) :
    ∃ l1 l2, interpolate levels r1 = .ok l1 ∧ interpolate levels r2 = .ok l2 ∧ l1 < l2
      ∧ (∀ t1 t2, observe ⟨s.Address, levels⟩ t1 r1 = .ok ⟨t1, r1, l1, 0, 0⟩
          ∧ observe ⟨s.Address, levels⟩ t2 r2 = .ok ⟨t2, r2, l2, 0, 0⟩) := by
  obtain ⟨hinc, first, last, hh, hl, hf1, hl1, hf0, hln⟩ := accepted_ends s levels hacc
  have hlast_mem : last ∈ levels := List.getElem?_mem hln
  have key : ∃ l1 l2, interpolate levels r1 = .ok l1 ∧ interpolate levels r2 = .ok l2
      ∧ l1 < l2 := by
    rcases interpolate_char levels r1 first hh (by omega) with
      ⟨a, p1, q1, ga1, gb1, hle1, hxq1, hint1⟩ | ⟨hall1, _⟩
    · have hp1 : p1.Raw ≤ r1 := hle1 a p1 (le_refl _) ga1
      have hpq1 : p1.Liters < q1.Liters :=
        liters_index levels hinc a (a + 1) p1 q1 ga1 gb1 (by omega)
      obtain ⟨_, u1⟩ := lerp_bounds r1 p1 q1 hp1 hxq1 hpq1
      obtain ⟨hb1, _⟩ := List.getElem?_eq_some.mp gb1
      rcases interpolate_char levels r2 first hh (by omega) with
        ⟨b, p2, q2, ga2, gb2, hle2, hxq2, hint2⟩ | ⟨hall2, hint2⟩
      · have hp2 : p2.Raw ≤ r2 := hle2 b p2 (le_refl _) ga2
        have hpq2 : p2.Liters < q2.Liters :=
          liters_index levels hinc b (b + 1) p2 q2 ga2 gb2 (by omega)
        obtain ⟨v1, _⟩ := lerp_bounds r2 p2 q2 hp2 hxq2 hpq2
        refine ⟨lerp r1 p1 q1, lerp r2 p2 q2, hint1, hint2, ?_⟩
        rcases Nat.lt_trichotomy a b with hab | hab | hab
        · have := liters_index_le levels hinc (a + 1) b q1 p2 gb1 ga2 (by omega)
          linarith
        · subst hab
          rw [ga1] at ga2
          rw [gb1] at gb2
          cases ga2
          cases gb2
          exact lerp_strict_mono r1 r2 p1 q1 h12 (by omega) hpq1
        · have := hle1 (b + 1) q2 (by omega) gb2
          omega
      · have hx : r2 = last.Raw := by
          have := hall2 last hlast_mem
          omega
        rw [foldl_last_match levels r2 last 0 hl hx] at hint2
        have := liters_index_le levels hinc (a + 1) (levels.length - 1) q1 last gb1 hln
          (by omega)
        exact ⟨lerp r1 p1 q1, last.Liters, hint1, hint2, by linarith⟩
    · have := hall1 last hlast_mem
      omega
  obtain ⟨l1, l2, e1, e2, hlt⟩ := key
  exact ⟨l1, l2, e1, e2, hlt, fun t1 t2 =>
    ⟨observe_in_range s.Address levels t1 r1 l1 h1 (by omega) e1,
      observe_in_range s.Address levels t2 r2 l2 (by omega) h2 e2⟩⟩

/-- The table of the end-to-end example at the raw levels 2047 and 2048. -/
theorem liters_strictly_increasing_witness :
    validateLevels ⟨"tank", 1, 0, 4094, [⟨0, 0⟩, ⟨4094, 1000⟩]⟩
        = .ok [⟨1, 0⟩, ⟨4094, 1000⟩]
      ∧ ∃ l1 l2, interpolate [⟨1, 0⟩, ⟨4094, 1000⟩] 2047 = .ok l1
        ∧ interpolate [⟨1, 0⟩, ⟨4094, 1000⟩] 2048 = .ok l2 ∧ l1 < l2 :=
  ⟨by decide,
    let ⟨l1, l2, h1, h2, h3, _⟩ :=
      liters_strictly_increasing ⟨"tank", 1, 0, 4094, [⟨0, 0⟩, ⟨4094, 1000⟩]⟩
        [⟨1, 0⟩, ⟨4094, 1000⟩] 2047 2048 (by decide) (by decide) (by decide) (by decide)
    ⟨l1, l2, h1, h2, h3⟩⟩

/-! ## Shutdown coordination -/

/-- Once `Serve` waits on `stopChan` and the writer has returned, no event
changes that. -/
theorem step_stuck (c c1 : Coordination) (ev : Event) (outErr : GoError)
    (hs : c.serve = .sendingStop outErr) (hw : c.writerRunning = false)
    (h : step c ev = some c1) :
    c1.serve = .sendingStop outErr ∧ c1.writerRunning = false := by
  cases c with
  | mk serve w r hh =>
    simp only at hs hw
    subst hs
    subst hw
    cases ev <;> simp [step, onError] at h <;> (obtain ⟨_, rfl⟩ := h; exact ⟨rfl, rfl⟩)

theorem runEvents_stuck (events : List Event) :
    ∀ (c c1 : Coordination) (outErr : GoError), c.serve = .sendingStop outErr →
      c.writerRunning = false → runEvents c events = some c1 →
      c1.serve = .sendingStop outErr ∧ c1.writerRunning = false := by
  induction events with
  | nil =>
    intro c c1 outErr hs hw h
    simp only [runEvents, Option.some.injEq] at h
    subst h
    exact ⟨hs, hw⟩
  | cons ev rest ih =>
    intro c c1 outErr hs hw h
    unfold runEvents at h
    cases hstep : step c ev with
    | none => simp [hstep] at h
    | some c2 =>
      simp only [hstep] at h
      obtain ⟨hs2, hw2⟩ := step_stuck c c2 ev outErr hs hw hstep
      exact ih c2 c1 outErr hs2 hw2 h

/-- After a value was delivered to `Serve`, every later state holds the same
`outErr`: later reports are dropped, and the result, once `Serve` returns, is
the one of the first value. -/
theorem step_keeps_outErr (c c1 : Coordination) (ev : Event) (outErr : GoError)
    (hs : c.serve = .sendingStop outErr ∨ c.serve = .closing outErr
      ∨ c.serve = .returned (serveResult outErr))
    (h : step c ev = some c1) :
    c1.serve = .sendingStop outErr ∨ c1.serve = .closing outErr
      ∨ c1.serve = .returned (serveResult outErr) := by
  cases c with
  | mk serve w r hh =>
    simp only at hs
    rcases hs with hs | hs | hs <;> subst hs <;> cases ev <;> simp [step, onError] at h <;>
      (obtain ⟨_, rfl⟩ := h; simp)

theorem runEvents_keeps_outErr (events : List Event) :
    ∀ (c c1 : Coordination) (outErr : GoError),
      (c.serve = .sendingStop outErr ∨ c.serve = .closing outErr
        ∨ c.serve = .returned (serveResult outErr)) →
      runEvents c events = some c1 →
      (c1.serve = .sendingStop outErr ∨ c1.serve = .closing outErr
        ∨ c1.serve = .returned (serveResult outErr)) := by
  induction events with
  | nil =>
    intro c c1 outErr hs h
    simp only [runEvents, Option.some.injEq] at h
    subst h
    exact hs
  | cons ev rest ih =>
    intro c c1 outErr hs h
    unfold runEvents at h
    cases hstep : step c ev with
    | none => simp [hstep] at h
    | some c2 =>
      simp only [hstep] at h
      exact ih c2 c1 outErr (step_keeps_outErr c c2 ev outErr hs hstep) h

/-- A report made while `Serve` waits on line 331 is delivered; a report is a
single step of its caller in every state (it never blocks), and outside line
331 it leaves `Serve` as it is. -/
theorem onError_delivery (c : Coordination) (err : GoError) :
    (c.serve = .receiving → (onError c err).serve = .sendingStop err)
      ∧ (c.serve ≠ .receiving → onError c err = c)
      ∧ step c .shutdown = some (onError c .stopError) := by
  refine ⟨?_, ?_, rfl⟩
  · intro h
    simp [onError, h]
  · intro h
    cases c with
    | mk serve w r hh =>
      cases serve <;> simp_all [onError]

/-- While the writer runs, `Serve` gets through the stop handshake and the
teardown and returns the result of the delivered value. -/
theorem teardown_with_writer (c : Coordination) (outErr : GoError)
    (hs : c.serve = .sendingStop outErr) (hw : c.writerRunning = true) :
    runEvents c [.stopTaken, .closed]
      = some { c with serve := .returned (serveResult outErr), writerRunning := false } := by
  cases c with
  | mk serve w r hh =>
    simp only at hs hw
    subst hs
    subst hw
    simp [runEvents, step]

/-- A read error delivered first, with a writer that takes the stop signal:
`Serve` returns that error, and a call of `Shutdown` in between changes
nothing. -/
theorem read_error_first :
    runEvents started [.serveReady, .readFailed "read", .shutdown, .stopTaken, .closed]
      = some ⟨.returned (some (.fault "read")), false, false, true⟩ := by
  decide

/-- The stop sentinel delivered first: `Serve` returns `nil`, also when the
read error caused by closing the port is reported during the teardown. -/
theorem stop_first :
    runEvents started [.serveReady, .shutdown, .stopTaken, .readFailed "closed", .closed]
      = some ⟨.returned none, false, false, true⟩ := by
  decide

/-- C17 fails on the code for a write error: when `port.Write` fails while
`Serve` waits on line 331, the error is delivered and the writer returns;
`Serve` then blocks in the send on `stopChan`, whose only receiver was the
writer, and under no further events does it reach the teardown or return. -/
theorem write_error_blocks_serve :
    runEvents started [.serveReady, .writeFailed "write"]
        = some ⟨.sendingStop (.fault "write"), false, true, true⟩
      ∧ ∀ events c, runEvents ⟨.sendingStop (.fault "write"), false, true, true⟩ events = some c →
          c.serve = .sendingStop (.fault "write") ∧ (∀ result, c.serve ≠ .returned result) := by
  refine ⟨by decide, ?_⟩
  intro events c h
  obtain ⟨h1, _⟩ := runEvents_stuck events _ c (.fault "write") rfl rfl h
  refine ⟨h1, ?_⟩
  intro result hr
  rw [h1] at hr
  cases hr

/-- C18 fails on the code for a write error delivered first: the value of a
later `Shutdown` is dropped and the write error stays the value `Serve` holds,
but `Serve` never returns it, whatever happens afterwards. -/
theorem write_error_then_shutdown :
    runEvents started [.serveReady, .writeFailed "write", .shutdown]
        = some ⟨.sendingStop (.fault "write"), false, true, true⟩
      ∧ ∀ events c,
          runEvents started ([.serveReady, .writeFailed "write", .shutdown] ++ events) = some c →
          ∀ result, c.serve ≠ .returned result := by
  refine ⟨by decide, ?_⟩
  intro events c h result hr
  have hrun : runEvents started ([.serveReady, .writeFailed "write", .shutdown] ++ events)
      = runEvents ⟨.sendingStop (.fault "write"), false, true, true⟩ events := by
    simp [runEvents, step, started, onError]
  rw [hrun] at h
  obtain ⟨h1, _⟩ := runEvents_stuck events _ c (.fault "write") rfl rfl h
  rw [h1] at hr
  cases hr

/-! ## Validation on `float64` liters -/

theorem float64_lt_num (a b : ℚ) : (float64.num a).lt (.num b) = true ↔ a < b := by
  simp only [float64.lt, float64.ge, Bool.and_eq_true, decide_eq_true_eq, Bool.not_eq_true',
    decide_eq_false_iff_not, not_le]
  constructor
  · intro h; exact h.2
  · intro h; exact ⟨le_of_lt h, h⟩

theorem float64_ge_num (a b : ℚ) : (float64.num a).ge (.num b) = true ↔ b ≤ a := by
  simp [float64.ge]

/-- Without NaN, `a >= b` is false exactly when `a < b`. -/
theorem float64_ge_false (a b : float64) (ha : a ≠ .nan) (hb : b ≠ .nan) :
    a.ge b = false ↔ a.lt b = true := by
  cases a <;> cases b <;> simp_all [float64.lt, float64.ge, le_of_lt]

theorem float64_lt_trans (a b c : float64) (hab : a.lt b = true) (hbc : b.lt c = true) :
    a.lt c = true := by
  cases a <;> cases b <;> cases c <;> simp_all [float64.lt, float64.ge]
  exact ⟨le_of_lt (lt_trans hab.2 hbc.2), lt_trans hab.2 hbc.2⟩

theorem float64_lt_ge (a b : float64) (h : a.lt b = true) : b.ge a = true := by
  simp only [float64.lt, Bool.and_eq_true] at h
  exact h.1

theorem float64_ge_refl (a : float64) (ha : a ≠ .nan) : a.ge a = true := by
  cases a <;> simp_all [float64.ge]

theorem remapLevelsF64_ok (minRaw maxRaw : Int) (hden : wrap64 (maxRaw - minRaw) ≠ 0)
    (ls : List levelF64) :
    ∃ remapped, remapLevelsF64 minRaw maxRaw ls = .ok remapped
      ∧ remapped.length = ls.length
      ∧ remapped.map (fun l => l.Liters) = ls.map (fun l => l.Liters) := by
  induction ls with
  | nil => exact ⟨[], rfl, rfl, rfl⟩
  | cons l rest ih =>
    obtain ⟨r, hr, hlen, hl⟩ := ih
    simp only [remapLevelsF64, remapRaw, if_neg hden, hr]
    exact ⟨_, rfl, by simp [hlen], by simp [hl]⟩

theorem litersLoopF64_iff (levels : List levelF64) :
    ∀ (fuel i : Nat), levels.length ≤ i + fuel →
      (litersLoopF64 levels i fuel = true ↔
        ¬ (levels.drop i).Chain' (fun a b => a.Liters.ge b.Liters = false)) := by
  intro fuel
  induction fuel with
  | zero =>
    intro i h
    have : levels.drop i = [] := List.drop_eq_nil_of_le (by omega)
    simp [litersLoopF64, this]
  | succ fuel ih =>
    intro i h
    unfold litersLoopF64
    by_cases hi : i + 1 < levels.length
    · have h1 : levels.drop i = levels[i] :: levels[i + 1] :: levels.drop (i + 2) := by
        rw [List.drop_eq_getElem_cons (by omega), List.drop_eq_getElem_cons hi]
      have h2 : levels.drop (i + 1) = levels[i + 1] :: levels.drop (i + 2) := by
        rw [List.drop_eq_getElem_cons hi]
      have ih1 := ih (i + 1) (by omega)
      rw [h2] at ih1
      simp only [hi, dite_true, h1, List.chain'_cons] at ih1 ⊢
      cases hge : levels[i].Liters.ge levels[i + 1].Liters with
      | true => simp
      | false => simp [ih1]
    · have hshort : (levels.drop i).length ≤ 1 := by simp; omega
      have : (levels.drop i).Chain' (fun a b => a.Liters.ge b.Liters = false) := by
        match hl : levels.drop i, hshort with
        | [], _ => exact List.chain'_nil
        | [a], _ => exact List.chain'_singleton a
      simp [hi, this]

/-- The checks of `validateF64`, in the order the code makes them, on the
sorted remapped table. -/
theorem validateF64_eq (sortSlice : List levelF64 → List levelF64) (s : ConfigF64)
    (remapped : List levelF64)
    (hre : remapLevelsF64 s.MinRaw s.MaxRaw s.Levels = .ok remapped)
    (hlen : (sortSlice remapped).length = s.Levels.length) :
    validateF64 sortSlice s =
      if s.Levels.length < 2 then .error "at least two levels should be defined"
      else if ¬ (sortSlice remapped).Chain' (fun a b => a.Liters.ge b.Liters = false) then
        .error "sensor raw and liters values are not increasing"
      else if (sortSlice remapped).head?.map (fun l => l.Raw) ≠ some 1 then
        .error "lowest level should be for empty tank"
      else if (sortSlice remapped).getLast?.map (fun l => l.Raw) ≠ some 4094 then
        .error "highest level should be for full tank"
      else .ok (sortSlice remapped) := by
  unfold validateF64
  by_cases h2 : s.Levels.length < 2
  · simp only [h2, if_true]
  · simp only [h2, if_false, hre]
    have hloop := litersLoopF64_iff (sortSlice remapped) (sortSlice remapped).length 0
      (by omega)
    rw [List.drop_zero] at hloop
    by_cases hinc : (sortSlice remapped).Chain' (fun a b => a.Liters.ge b.Liters = false)
    · have hfalse : litersLoopF64 (sortSlice remapped) 0 (sortSlice remapped).length
          = false := by
        cases hb : litersLoopF64 (sortSlice remapped) 0 (sortSlice remapped).length with
        | false => rfl
        | true => exact absurd hinc (hloop.mp hb)
      have h0 := @List.getElem?_eq_getElem _ (sortSlice remapped) 0 (by omega)
      have h1 := @List.getElem?_eq_getElem _ (sortSlice remapped)
        ((sortSlice remapped).length - 1) (by omega)
      simp only [hfalse, hinc, not_true_eq_false, if_false, List.head?_eq_getElem?,
        List.getLast?_eq_getElem?, h0, h1, Option.map_some', ne_eq, Option.some.injEq,
        Bool.false_eq_true]
    · have htrue : litersLoopF64 (sortSlice remapped) 0 (sortSlice remapped).length
          = true := hloop.mpr hinc
      simp only [htrue, hinc, not_false_eq_true, if_true]

theorem insertionSortF64_sortsByRaw : sortsByRaw insertionSortF64 := by
  intro l
  haveI : IsTotal levelF64 (fun a b => a.Raw ≤ b.Raw) := ⟨fun a b => le_total a.Raw b.Raw⟩
  haveI : IsTrans levelF64 (fun a b => a.Raw ≤ b.Raw) :=
    ⟨fun a b c hab hbc => le_trans hab hbc⟩
  exact ⟨List.perm_insertionSort _ l, List.sorted_insertionSort _ l⟩

/-- What validation established about an accepted `float64` table, for every
routine that sorts by raw. -/
theorem acceptedF64_facts (sortSlice : List levelF64 → List levelF64)
    (hsort : sortsByRaw sortSlice) (s : ConfigF64) (levels : List levelF64)
    (h : validateF64 sortSlice s = .ok levels) :
    2 ≤ levels.length ∧ levels.Pairwise (fun a b => a.Raw ≤ b.Raw)
      ∧ levels.Chain' (fun a b => a.Liters.ge b.Liters = false)
      ∧ levels.head?.map (fun l => l.Raw) = some 1
      ∧ levels.getLast?.map (fun l => l.Raw) = some 4094 := by
  by_cases h2 : s.Levels.length < 2
  · simp [validateF64, h2] at h
  · cases hre : remapLevelsF64 s.MinRaw s.MaxRaw s.Levels with
    | crashed => simp [validateF64, h2, hre] at h
    | error msg => simp [validateF64, h2, hre] at h
    | ok remapped =>
      have hlen : remapped.length = s.Levels.length := by
        have hden : wrap64 (s.MaxRaw - s.MinRaw) ≠ 0 := by
          intro h0
          cases hl : s.Levels with
          | nil => simp [hl] at h2
          | cons l rest => simp [hl, remapLevelsF64, remapRaw, h0] at hre
        obtain ⟨r, hr, hrl, _⟩ := remapLevelsF64_ok s.MinRaw s.MaxRaw hden s.Levels
        rw [hre] at hr
        cases hr
        exact hrl
      have hlen2 : (sortSlice remapped).length = s.Levels.length := by
        rw [(hsort remapped).1.length_eq, hlen]
      rw [validateF64_eq sortSlice s remapped hre hlen2] at h
      simp only [h2, if_false] at h
      split_ifs at h with h3 h4 h5
      cases h
      exact ⟨by omega, (hsort remapped).2, h3, not_not.mp h4, not_not.mp h5⟩

theorem rawF64_bounds (levels : List levelF64)
    (hs : levels.Pairwise (fun a b => a.Raw ≤ b.Raw))
    (hfirst : levels.head?.map (fun l => l.Raw) = some 1)
    (hlast : levels.getLast?.map (fun l => l.Raw) = some 4094)
    (l : levelF64) (hl : l ∈ levels) : 1 ≤ l.Raw ∧ l.Raw ≤ 4094 := by
  obtain ⟨k, hk, rfl⟩ := List.mem_iff_getElem.mp hl
  have h0 := @List.getElem?_eq_getElem _ levels 0 (by omega)
  have h1 := @List.getElem?_eq_getElem _ levels (levels.length - 1) (by omega)
  rw [List.head?_eq_getElem?, h0] at hfirst
  rw [List.getLast?_eq_getElem?, h1] at hlast
  simp only [Option.map_some', Option.some.injEq] at hfirst hlast
  have hp := List.pairwise_iff_getElem.mp hs
  constructor
  · rcases Nat.eq_zero_or_pos k with h | h
    · subst h; omega
    · have := hp 0 k (by omega) hk h
      omega
  · rcases Nat.lt_or_ge k (levels.length - 1) with h | h
    · have := hp k (levels.length - 1) hk (by omega) h
      omega
    · have hk2 : k = levels.length - 1 := by omega
      subst hk2; omega

/-- On a table without NaN the check of lines 170-174 passes exactly when the
liters increase strictly. -/
theorem chain_ge_false_iff (levels : List levelF64)
    (hnan : ∀ l ∈ levels, l.Liters ≠ .nan) :
    levels.Chain' (fun a b => a.Liters.ge b.Liters = false) ↔ litersIncreasingF64 levels := by
  unfold litersIncreasingF64
  constructor
  · intro h
    refine (List.Chain'.iff_mem.mp h).imp ?_
    intro a b ⟨ha, hb, hab⟩
    exact (float64_ge_false _ _ (hnan a ha) (hnan b hb)).mp hab
  · intro h
    refine (List.Chain'.iff_mem.mp h).imp ?_
    intro a b ⟨ha, hb, hab⟩
    exact (float64_ge_false _ _ (hnan a ha) (hnan b hb)).mpr hab

theorem litersF64_pairwise (levels : List levelF64) (h : litersIncreasingF64 levels) :
    levels.Pairwise (fun a b => a.Liters.lt b.Liters = true) := by
  haveI : IsTrans levelF64 (fun a b => a.Liters.lt b.Liters = true) :=
    ⟨fun a b c hab hbc => float64_lt_trans _ _ _ hab hbc⟩
  exact List.chain'_iff_pairwise.mp h

/-- C15, amended: for every routine that sorts by raw, every point of an
accepted table has a remapped raw in [1,4094]; the liters are not compared
with 0, and when no liters value of the table is NaN they are not below the
liters of the first point of the table. -/
theorem acceptedF64_points (sortSlice : List levelF64 → List levelF64)
    (hsort : sortsByRaw sortSlice) (s : ConfigF64) (levels : List levelF64)
    (hacc : validateF64 sortSlice s = .ok levels) (l : levelF64) (hl : l ∈ levels) :
    1 ≤ l.Raw ∧ l.Raw ≤ 4094
      ∧ ∃ first, levels.head? = some first ∧ first.Raw = 1
        ∧ ((∀ p ∈ levels, p.Liters ≠ .nan) → l.Liters.ge first.Liters = true) := by
  obtain ⟨hlen, hs, hchain, hfirst, hlast⟩ := acceptedF64_facts sortSlice hsort s levels hacc
  obtain ⟨h1, h2⟩ := rawF64_bounds levels hs hfirst hlast l hl
  refine ⟨h1, h2, ?_⟩
  cases levels with
  | nil => simp at hlen
  | cons first rest =>
    refine ⟨first, rfl, by simpa using hfirst, ?_⟩
    intro hnan
    rcases List.mem_cons.mp hl with h | h
    · rw [h]
      exact float64_ge_refl _ (hnan first (List.mem_cons_self _ _))
    · have hinc := (chain_ge_false_iff _ hnan).mp hchain
      exact float64_lt_ge _ _ ((List.pairwise_cons.mp (litersF64_pairwise _ hinc)).1 l h)

/-- A table with an infinite and a negative liters value, and its last
point. -/
theorem acceptedF64_points_witness :
    validateF64 insertionSortF64 ⟨"tank", 1, 1, 4094, [⟨1, .num (-5)⟩, ⟨4094, .posInf⟩]⟩
        = .ok [⟨1, .num (-5)⟩, ⟨4094, .posInf⟩]
      ∧ (⟨4094, .posInf⟩ : levelF64) ∈ ([⟨1, .num (-5)⟩, ⟨4094, .posInf⟩] : List levelF64)
      ∧ (1 : Int) ≤ (⟨4094, .posInf⟩ : levelF64).Raw
      ∧ (⟨4094, .posInf⟩ : levelF64).Raw ≤ 4094 :=
  ⟨by decide, by decide,
    (acceptedF64_points insertionSortF64 insertionSortF64_sortsByRaw
      ⟨"tank", 1, 1, 4094, [⟨1, .num (-5)⟩, ⟨4094, .posInf⟩]⟩
      [⟨1, .num (-5)⟩, ⟨4094, .posInf⟩] (by decide) ⟨4094, .posInf⟩ (by decide)).1,
    (acceptedF64_points insertionSortF64 insertionSortF64_sortsByRaw
      ⟨"tank", 1, 1, 4094, [⟨1, .num (-5)⟩, ⟨4094, .posInf⟩]⟩
      [⟨1, .num (-5)⟩, ⟨4094, .posInf⟩] (by decide) ⟨4094, .posInf⟩ (by decide)).2.1⟩

/-- For `MinRaw` different from `MaxRaw`, liters without NaN and every routine
that sorts by raw, validation returns an error exactly in the four cases named
by the specification, and otherwise accepts the sorted remapped table. -/
theorem validateF64_error_iff (sortSlice : List levelF64 → List levelF64)
    (hsort : sortsByRaw sortSlice) (s : ConfigF64) (hmin : isInt64 s.MinRaw)
    (hmax : isInt64 s.MaxRaw) (hne : s.MinRaw ≠ s.MaxRaw)
    (hnan : ∀ l ∈ s.Levels, l.Liters ≠ .nan) :
    ∃ remapped, remapLevelsF64 s.MinRaw s.MaxRaw s.Levels = .ok remapped
      ∧ ((∃ msg, validateF64 sortSlice s = .error msg) ↔
          (s.Levels.length < 2
            ∨ ¬ litersIncreasingF64 (sortSlice remapped)
            ∨ (sortSlice remapped).head?.map (fun l => l.Raw) ≠ some 1
            ∨ (sortSlice remapped).getLast?.map (fun l => l.Raw) ≠ some 4094))
      ∧ ((¬ ∃ msg, validateF64 sortSlice s = .error msg) →
          validateF64 sortSlice s = .ok (sortSlice remapped)) := by
  obtain ⟨remapped, hre, hlen, hliters⟩ := remapLevelsF64_ok s.MinRaw s.MaxRaw
    (wrap64_sub_ne_zero s.MinRaw s.MaxRaw hmin hmax hne) s.Levels
  have hnan2 : ∀ l ∈ sortSlice remapped, l.Liters ≠ .nan := by
    intro l hl
    have hl2 : l ∈ remapped := (hsort remapped).1.mem_iff.mp hl
    have hl3 : l.Liters ∈ remapped.map (fun l => l.Liters) := List.mem_map_of_mem _ hl2
    rw [hliters] at hl3
    obtain ⟨l0, hl0, he⟩ := List.mem_map.mp hl3
    rw [← he]
    exact hnan l0 hl0
  have hlen2 : (sortSlice remapped).length = s.Levels.length := by
    rw [(hsort remapped).1.length_eq, hlen]
  refine ⟨remapped, hre, ?_⟩
  have hc := chain_ge_false_iff _ hnan2
  rw [validateF64_eq sortSlice s remapped hre hlen2]
  by_cases h1 : s.Levels.length < 2
  · simp [h1]
  · by_cases h2 : (sortSlice remapped).Chain' (fun a b => a.Liters.ge b.Liters = false)
    · have h2b : litersIncreasingF64 (sortSlice remapped) := hc.mp h2
      by_cases h3 : (sortSlice remapped).head?.map (fun l => l.Raw) = some 1
      · by_cases h4 : (sortSlice remapped).getLast?.map (fun l => l.Raw) = some 4094
        · simp [h1, h2, h2b, h3, h4]
        · simp [h1, h2, h2b, h3, h4]
      · simp [h1, h2, h2b, h3]
    · have h2b : ¬ litersIncreasingF64 (sortSlice remapped) := fun h => h2 (hc.mpr h)
      simp [h1, h2, h2b]

/-- C3 fails on the code for NaN liters: the table with the points (1, NaN)
and (4094, NaN) has two points, first raw 1 and last raw 4094, and its liters
do not increase strictly, yet validation returns no error and accepts it,
because the comparison `NaN >= NaN` of line 171 is false. -/
theorem nan_table_accepted :
    validateF64 insertionSortF64 ⟨"tank", 1, 1, 4094, [⟨1, .nan⟩, ⟨4094, .nan⟩]⟩
        = .ok [⟨1, .nan⟩, ⟨4094, .nan⟩]
      ∧ ¬ litersIncreasingF64 [⟨1, .nan⟩, ⟨4094, .nan⟩]
      ∧ float64.nan.ge .nan = false
      ∧ ¬ ∃ msg, validateF64 insertionSortF64
          ⟨"tank", 1, 1, 4094, [⟨1, .nan⟩, ⟨4094, .nan⟩]⟩ = .error msg := by
  have h : validateF64 insertionSortF64 ⟨"tank", 1, 1, 4094, [⟨1, .nan⟩, ⟨4094, .nan⟩]⟩
      = .ok [⟨1, .nan⟩, ⟨4094, .nan⟩] := by decide
  refine ⟨h, ?_, rfl, ?_⟩
  · simp [litersIncreasingF64, float64.lt, float64.ge]
  · rw [h]
    simp

/-! ## The interpolation scan on `float64` liters -/

theorem scanF64_interp (levels : List levelF64) (x : Int) (i : Nat)
    (p q : levelF64) (rest : List levelF64) (level : float64) (hi : 0 < i)
    (hp : levels[i - 1]? = some p) (hx : x < q.Raw) :
    scanF64 levels x i (q :: rest) level = .ok (lerpF64 x p q) := by
  have h1 : ¬ x = q.Raw := by omega
  have h2 : ¬ i = 0 := by omega
  simp only [scanF64, h1, hx, h2, if_false, if_true, hp]

/-- Outcome of the `float64` scan from any position: it interpolates between a
point `q` with `rawLevel < q.Raw` and its predecessor, or it passes over all
the points and ends with the liters of the last exact match. -/
theorem scanF64_char (levels : List levelF64) (x : Int) :
    ∀ (suf pre : List levelF64) (level : float64), levels = pre ++ suf →
      (∀ l ∈ pre, l.Raw ≤ x) → (pre = [] → ∀ l, suf.head? = some l → l.Raw ≤ x) →
      (∃ pre2 p q rest2, levels = pre2 ++ p :: q :: rest2 ∧ (∀ l ∈ pre2, l.Raw ≤ x)
          ∧ p.Raw ≤ x ∧ x < q.Raw
          ∧ scanF64 levels x pre.length suf level = .ok (lerpF64 x p q))
        ∨ ((∀ l ∈ suf, l.Raw ≤ x)
          ∧ scanF64 levels x pre.length suf level
            = .ok (suf.foldl (fun lv l => if x = l.Raw then l.Liters else lv) level)) := by
  intro suf
  induction suf with
  | nil =>
    intro pre level _ _ _
    exact Or.inr ⟨by simp, rfl⟩
  | cons l rest ih =>
    intro pre level hsplit hpre hhead
    have hsplit2 : levels = (pre ++ [l]) ++ rest := by rw [hsplit]; simp
    have hlen2 : (pre ++ [l]).length = pre.length + 1 := by simp
    by_cases h1 : x = l.Raw
    · have hpre2 : ∀ y ∈ pre ++ [l], y.Raw ≤ x := by
        intro y hy
        rcases List.mem_append.mp hy with h | h
        · exact hpre y h
        · rw [List.mem_singleton.mp h]; omega
      have hih := ih (pre ++ [l]) l.Liters hsplit2 hpre2 (by simp)
      rw [hlen2] at hih
      rw [scanF64]
      simp only [h1, if_true, List.foldl_cons]
      rcases hih with ⟨pre2, p, q, rest2, e1, e2, e3, e4, e5⟩ | ⟨e1, e2⟩
      · exact Or.inl ⟨pre2, p, q, rest2, e1, by rwa [h1] at e2, by rwa [h1] at e3,
          by rwa [h1] at e4, by rwa [h1] at e5⟩
      · refine Or.inr ⟨?_, by rwa [h1] at e2⟩
        intro y hy
        rcases List.mem_cons.mp hy with h | h
        · rw [h]
        · have := e1 y h
          rwa [h1] at this
    · by_cases h2 : x < l.Raw
      · have hne : pre ≠ [] := by
          intro hnil
          have := hhead hnil l rfl
          omega
        rcases List.eq_nil_or_concat pre with hnil | ⟨pre0, p, hp⟩
        · exact absurd hnil hne
        · rw [List.concat_eq_append] at hp
          have hlen : pre.length = pre0.length + 1 := by rw [hp]; simp
          have hsplit3 : levels = pre0 ++ p :: l :: rest := by rw [hsplit, hp]; simp
          have hget : levels[pre.length - 1]? = some p := by
            rw [hlen, hsplit3, List.getElem?_append_right (by simp)]
            simp
          refine Or.inl ⟨pre0, p, l, rest, hsplit3, ?_, ?_, h2, ?_⟩
          · intro y hy
            exact hpre y (by rw [hp]; exact List.mem_append_left _ hy)
          · exact hpre p (by rw [hp]; simp)
          · exact scanF64_interp levels x pre.length p l rest level (by omega) hget h2
      · have hpre2 : ∀ y ∈ pre ++ [l], y.Raw ≤ x := by
          intro y hy
          rcases List.mem_append.mp hy with h | h
          · exact hpre y h
          · rw [List.mem_singleton.mp h]; omega
        have hih := ih (pre ++ [l]) level hsplit2 hpre2 (by simp)
        rw [hlen2] at hih
        rw [scanF64]
        simp only [h1, h2, if_false, List.foldl_cons]
        rcases hih with ⟨pre2, p, q, rest2, e1, e2, e3, e4, e5⟩ | ⟨e1, e2⟩
        · exact Or.inl ⟨pre2, p, q, rest2, e1, e2, e3, e4, e5⟩
        · refine Or.inr ⟨?_, e2⟩
          intro y hy
          rcases List.mem_cons.mp hy with h | h
          · rw [h]; omega
          · exact e1 y h

/-- The `float64` scan of the whole table, by index. -/
theorem interpolateF64_char (levels : List levelF64) (x : Int) (first : levelF64)
    (hhead : levels.head? = some first) (hfirst : first.Raw ≤ x) :
    (∃ a p q, levels[a]? = some p ∧ levels[a + 1]? = some q
        ∧ (∀ k l, k ≤ a → levels[k]? = some l → l.Raw ≤ x) ∧ x < q.Raw
        ∧ interpolateF64 levels x = .ok (lerpF64 x p q))
      ∨ ((∀ l ∈ levels, l.Raw ≤ x)
        ∧ interpolateF64 levels x
          = .ok (levels.foldl (fun lv l => if x = l.Raw then l.Liters else lv) (.num 0))) := by
  have h := scanF64_char levels x levels [] (.num 0) rfl
    (fun _ hl => absurd hl (List.not_mem_nil _))
    (fun _ l hl => by
      rw [hhead] at hl
      cases hl
      exact hfirst)
  rcases h with ⟨pre, p, q, rest, e1, e2, e3, e4, e5⟩ | ⟨e1, e2⟩
  · have g1 : levels[pre.length]? = some p := by
      rw [e1, List.getElem?_append_right (by simp)]
      simp
    have g2 : levels[pre.length + 1]? = some q := by
      rw [e1, List.getElem?_append_right (by simp)]
      simp
    refine Or.inl ⟨pre.length, p, q, g1, g2, ?_, e4, e5⟩
    intro k l hk hl
    rcases Nat.lt_or_ge k pre.length with hlt | hge
    · rw [e1, List.getElem?_append_left hlt] at hl
      exact e2 l (List.getElem?_mem hl)
    · have hk2 : k = pre.length := by omega
      rw [hk2, g1] at hl
      cases hl
      exact e3
  · exact Or.inr ⟨e1, e2⟩

theorem foldlF64_last_match (levels : List levelF64) (x : Int) (last : levelF64)
    (level : float64) (hlast : levels.getLast? = some last) (hx : x = last.Raw) :
    levels.foldl (fun lv l => if x = l.Raw then l.Liters else lv) level = last.Liters := by
  obtain ⟨init, rfl⟩ := List.getLast?_eq_some_iff.mp hlast
  rw [List.foldl_append]
  simp [hx]

/-- On real-number liters and a non-zero divisor line 274 computes, in exact
arithmetic, the interpolation formula. -/
theorem lerpF64_num (x : Int) (p q : levelF64) (a b : ℚ) (hp : p.Liters = .num a)
    (hq : q.Liters = .num b) (hd : q.Raw - p.Raw ≠ 0) :
    lerpF64 x p q = .num (lerp x ⟨p.Raw, a⟩ ⟨q.Raw, b⟩) := by
  simp [lerpF64, lerp, hp, hq, float64.sub, float64.mulInt, float64.divInt, float64.add, hd]

theorem litersF64_index_le (levels : List levelF64)
    (hpw : levels.Pairwise (fun a b => a.Liters.lt b.Liters = true))
    (i j : Nat) (a b : levelF64) (u v : ℚ) (ha : levels[i]? = some a)
    (hb : levels[j]? = some b) (hu : a.Liters = .num u) (hv : b.Liters = .num v)
    (hij : i ≤ j) : u ≤ v := by
  rcases Nat.lt_or_ge i j with h | h
  · obtain ⟨hi, rfl⟩ := List.getElem?_eq_some.mp ha
    obtain ⟨hj, rfl⟩ := List.getElem?_eq_some.mp hb
    have := List.pairwise_iff_getElem.mp hpw i j hi hj h
    rw [hu, hv] at this
    exact le_of_lt ((float64_lt_num u v).mp this)
  · have : i = j := by omega
    subst this
    rw [ha] at hb
    cases hb
    rw [hu] at hv
    cases hv
    exact le_refl _

/-- C19 as stated fails: the accepted table with the points (1, NaN) and
(4094, NaN) yields NaN at raw level 2047 (interpolation step) and at raw
level 4094 (exact match), and NaN is neither at least the liters of the first
point nor at most the liters of the last point. -/
theorem nan_table_yields_nan :
    validateF64 insertionSortF64 ⟨"tank", 1, 1, 4094, [⟨1, .nan⟩, ⟨4094, .nan⟩]⟩
        = .ok [⟨1, .nan⟩, ⟨4094, .nan⟩]
      ∧ interpolateF64 [⟨1, .nan⟩, ⟨4094, .nan⟩] 2047 = .ok .nan
      ∧ interpolateF64 [⟨1, .nan⟩, ⟨4094, .nan⟩] 4094 = .ok .nan
      ∧ ¬ (float64.nan.ge (⟨1, .nan⟩ : levelF64).Liters = true
          ∧ (⟨4094, .nan⟩ : levelF64).Liters.ge .nan = true) := by
  decide

/-- C19, amended: for every routine that sorts by raw, every accepted table
and every raw level in [1,4094], the scan does not panic and yields liters
that come either from the interpolation branch, taken at an index `i ≥ 1`
whose predecessor `p` and point `q` satisfy `p.Raw ≤ rawLevel < q.Raw`, so that
the divisor `q.Raw - p.Raw` is positive, or from an exact match with a point
of the table; when the liters of the table are real numbers and the arithmetic
is exact, the result is a real number between the liters of the first and of
the last point. -/
theorem scanF64_defined (sortSlice : List levelF64 → List levelF64)
    (hsort : sortsByRaw sortSlice) (s : ConfigF64) (levels : List levelF64) (x : Int)
    (hacc : validateF64 sortSlice s = .ok levels) (h1 : 1 ≤ x) (h2 : x ≤ 4094) :
    ∃ result first last, interpolateF64 levels x = .ok result
      ∧ levels.head? = some first ∧ levels.getLast? = some last
      ∧ ((∃ i p q, 1 ≤ i ∧ levels[i - 1]? = some p ∧ levels[i]? = some q
            ∧ p.Raw ≤ x ∧ x < q.Raw ∧ 0 < q.Raw - p.Raw ∧ result = lerpF64 x p q)
          ∨ (∃ p ∈ levels, x = p.Raw ∧ result = p.Liters))
      ∧ ((∀ l ∈ levels, ∃ v, l.Liters = .num v) →
          ∃ r f t, result = .num r ∧ first.Liters = .num f ∧ last.Liters = .num t
            ∧ f ≤ r ∧ r ≤ t) := by
  obtain ⟨hlen, _, hchain, hfirst, hlast⟩ := acceptedF64_facts sortSlice hsort s levels hacc
  obtain ⟨first, hh⟩ : ∃ first, levels.head? = some first := by
    cases h : levels.head? with
    | none => simp [h] at hfirst
    | some first => exact ⟨first, rfl⟩
  obtain ⟨last, hl⟩ : ∃ last, levels.getLast? = some last := by
    cases h : levels.getLast? with
    | none => simp [h] at hlast
    | some last => exact ⟨last, rfl⟩
  have hf1 : first.Raw = 1 := by simpa [hh] using hfirst
  have hl1 : last.Raw = 4094 := by simpa [hl] using hlast
  have hf0 : levels[0]? = some first := by rw [← List.head?_eq_getElem?]; exact hh
  have hln : levels[levels.length - 1]? = some last := by
    rw [← List.getLast?_eq_getElem?]; exact hl
  have hlast_mem : last ∈ levels := List.getElem?_mem hln
  have hfirst_mem : first ∈ levels := List.getElem?_mem hf0
  have hpw : (∀ l ∈ levels, ∃ v, l.Liters = .num v) →
      levels.Pairwise (fun a b => a.Liters.lt b.Liters = true) := by
    intro hnum
    have hnan : ∀ l ∈ levels, l.Liters ≠ .nan := by
      intro l hl0 hn
      obtain ⟨v, hv⟩ := hnum l hl0
      rw [hv] at hn
      cases hn
    exact litersF64_pairwise levels ((chain_ge_false_iff levels hnan).mp hchain)
  rcases interpolateF64_char levels x first hh (by omega) with
    ⟨a, p, q, ga, gb, hle, hxq, hint⟩ | ⟨hall, hint⟩
  · have hpx : p.Raw ≤ x := hle a p (le_refl _) ga
    obtain ⟨hb, _⟩ := List.getElem?_eq_some.mp gb
    refine ⟨lerpF64 x p q, first, last, hint, hh, hl,
      Or.inl ⟨a + 1, p, q, by omega, by simpa using ga, gb, hpx, hxq, by omega, rfl⟩, ?_⟩
    intro hnum
    obtain ⟨u, hu⟩ := hnum p (List.getElem?_mem ga)
    obtain ⟨v, hv⟩ := hnum q (List.getElem?_mem gb)
    obtain ⟨f, hf⟩ := hnum first hfirst_mem
    obtain ⟨t, ht⟩ := hnum last hlast_mem
    have huv : u < v := by
      obtain ⟨hi, e1⟩ := List.getElem?_eq_some.mp ga
      obtain ⟨hj, e2⟩ := List.getElem?_eq_some.mp gb
      have := List.pairwise_iff_getElem.mp (hpw hnum) a (a + 1) hi hj (by omega)
      rw [e1, e2, hu, hv] at this
      exact (float64_lt_num u v).mp this
    obtain ⟨b1, b2⟩ := lerp_bounds x ⟨p.Raw, u⟩ ⟨q.Raw, v⟩ hpx hxq huv
    have hfu := litersF64_index_le levels (hpw hnum) 0 a first p f u hf0 ga hf hu (by omega)
    have hvt := litersF64_index_le levels (hpw hnum) (a + 1) (levels.length - 1) q last v t
      gb hln hv ht (by omega)
    exact ⟨lerp x ⟨p.Raw, u⟩ ⟨q.Raw, v⟩, f, t,
      lerpF64_num x p q u v hu hv (by omega), hf, ht, le_trans hfu b1,
      le_trans (le_of_lt b2) hvt⟩
  · have hx : x = last.Raw := by
      have := hall last hlast_mem
      omega
    rw [foldlF64_last_match levels x last (.num 0) hl hx] at hint
    refine ⟨last.Liters, first, last, hint, hh, hl, Or.inr ⟨last, hlast_mem, hx, rfl⟩, ?_⟩
    intro hnum
    obtain ⟨f, hf⟩ := hnum first hfirst_mem
    obtain ⟨t, ht⟩ := hnum last hlast_mem
    have hft := litersF64_index_le levels (hpw hnum) 0 (levels.length - 1) first last f t
      hf0 hln hf ht (by omega)
    exact ⟨t, f, t, ht, hf, ht, hft, le_refl _⟩

/-- The table of the end-to-end example at raw level 2047. -/
theorem scanF64_defined_witness :
    validateF64 insertionSortF64 ⟨"tank", 1, 0, 4094, [⟨0, .num 0⟩, ⟨4094, .num 1000⟩]⟩
        = .ok [⟨1, .num 0⟩, ⟨4094, .num 1000⟩]
      ∧ ∃ result first last,
          interpolateF64 [⟨1, .num 0⟩, ⟨4094, .num 1000⟩] 2047 = .ok result
        ∧ ([⟨1, .num 0⟩, ⟨4094, .num 1000⟩] : List levelF64).head? = some first
        ∧ ([⟨1, .num 0⟩, ⟨4094, .num 1000⟩] : List levelF64).getLast? = some last
        ∧ ((∀ l ∈ ([⟨1, .num 0⟩, ⟨4094, .num 1000⟩] : List levelF64),
              ∃ v, l.Liters = .num v) →
            ∃ r f t, result = .num r ∧ first.Liters = .num f ∧ last.Liters = .num t
              ∧ f ≤ r ∧ r ≤ t) :=
  ⟨by decide,
    let ⟨result, first, last, e1, e2, e3, _, e5⟩ :=
      scanF64_defined insertionSortF64 insertionSortF64_sortsByRaw
        ⟨"tank", 1, 0, 4094, [⟨0, .num 0⟩, ⟨4094, .num 1000⟩]⟩
        [⟨1, .num 0⟩, ⟨4094, .num 1000⟩] 2047 (by decide) (by decide) (by decide)
    ⟨result, first, last, e1, e2, e3, e5⟩⟩

end LLS
